import Mathlib

/-!
Verification of the Traffic Correlation Engine
(`app/services/correlation_service.py` of the source repository).

The engine is embedded shallowly: timestamps, scores and byte counts are
modelled with exact rationals and integers, Python dictionaries (which keep
insertion order) are modelled as association lists built in insertion order,
and the two effectful ingredients the engine delegates to — sklearn DBSCAN
label assignment and the wall clock read by `datetime.utcnow()` — are passed
in as explicit parameters.
-/

set_option maxHeartbeats 1000000

/-- Append a value to the bucket of key `k` in an association list of buckets.
If the key is absent, a fresh singleton bucket is added at the end.  This is
the Python idiom `if k not in d: d[k] = []; d[k].append(a)` on a dict that
keeps insertion order. -/
def addToGroup {α κ : Type} [DecidableEq κ] : List (κ × List α) → κ → α → List (κ × List α)
  | [], k, a => [(k, [a])]
  | (k', as) :: rest, k, a =>
      if k' = k then (k', as ++ [a]) :: rest else (k', as) :: addToGroup rest k a

/-- One step of grouping: elements whose key is `none` are skipped. -/
def groupStep {α κ : Type} [DecidableEq κ] (key : α → Option κ) (acc : List (κ × List α)) (a : α) : List (κ × List α) :=
  match key a with
  | none => acc
  | some k => addToGroup acc k a

/-- Group a list into buckets keyed by `key`, dropping elements whose key is
`none`.  Buckets appear in order of first appearance of their key (Python
dict insertion order); each bucket lists its elements in input order. -/
def groupByKey {α κ : Type} [DecidableEq κ] (key : α → Option κ) (l : List α) : List (κ × List α) :=
  l.foldl (groupStep key) []

/-- Append a key to a key list when it is not already present (dict key order). -/
def insertNew {κ : Type} [DecidableEq κ] (acc : List κ) (k : κ) : List κ :=
  if k ∈ acc then acc else acc ++ [k]

theorem addToGroup_map_fst {α κ : Type} [DecidableEq κ] (acc : List (κ × List α)) (k : κ) (a : α) :
    (addToGroup acc k a).map Prod.fst = insertNew (acc.map Prod.fst) k := by
  induction acc with
  | nil => simp [addToGroup, insertNew]
  | cons p rest ih =>
    obtain ⟨k', as⟩ := p
    by_cases h : k' = k
    · subst h
      simp [addToGroup, insertNew]
    · have h' : ¬k = k' := fun hh => h hh.symm
      simp only [addToGroup, if_neg h, List.map_cons, ih, insertNew, List.mem_cons]
      by_cases hmem : k ∈ rest.map Prod.fst
      · simp [hmem, h']
      · simp [hmem, h']

theorem addToGroup_lookup {α κ : Type} [DecidableEq κ] (acc : List (κ × List α)) (k k' : κ) (a : α) :
    List.lookup k' (addToGroup acc k a) =
      if k' = k then some (((List.lookup k acc).getD []) ++ [a]) else List.lookup k' acc := by
  induction acc with
  | nil =>
    by_cases h : k' = k
    · subst h; simp [addToGroup, List.lookup]
    · have hb : (k' == k) = false := beq_eq_false_iff_ne.mpr h
      simp [addToGroup, List.lookup, hb, h]
  | cons p rest ih =>
    obtain ⟨k₀, as⟩ := p
    by_cases h0 : k₀ = k
    · subst h0
      by_cases h : k' = k₀
      · subst h
        simp [addToGroup, List.lookup]
      · have hb : (k' == k₀) = false := beq_eq_false_iff_ne.mpr h
        simp [addToGroup, List.lookup, hb, h]
    · simp only [addToGroup, if_neg h0]
      by_cases h : k' = k₀
      · subst h
        simp [List.lookup, h0]
      · have hb : (k' == k₀) = false := beq_eq_false_iff_ne.mpr h
        by_cases h2 : k' = k
        · subst h2
          simp [List.lookup, hb, ih, hb]
        · simp [List.lookup, hb, ih, h2]

theorem lookup_of_mem_of_nodupKeys {α κ : Type} [DecidableEq κ]
    (acc : List (κ × List α)) (k : κ) (fs : List α)
    (hnd : (acc.map Prod.fst).Nodup) (hmem : (k, fs) ∈ acc) :
    List.lookup k acc = some fs := by
  induction acc with
  | nil => simp at hmem
  | cons p rest ih =>
    obtain ⟨k₀, as⟩ := p
    simp only [List.map_cons, List.nodup_cons] at hnd
    rcases List.mem_cons.mp hmem with heq | htail
    · obtain ⟨hk, hf⟩ := Prod.mk.injEq _ _ _ _ ▸ heq
      subst hk; subst hf
      simp [List.lookup]
    · have hne : k ≠ k₀ := by
        intro h
        subst h
        exact hnd.1 (List.mem_map.mpr ⟨(k, fs), htail, rfl⟩)
      have hb : (k == k₀) = false := beq_eq_false_iff_ne.mpr hne
      simp only [List.lookup, hb]
      exact ih hnd.2 htail

theorem mem_of_lookup_eq_some {α κ : Type} [DecidableEq κ]
    (acc : List (κ × List α)) (k : κ) (fs : List α)
    (h : List.lookup k acc = some fs) : (k, fs) ∈ acc := by
  induction acc with
  | nil => simp [List.lookup] at h
  | cons p rest ih =>
    obtain ⟨k₀, as⟩ := p
    by_cases hk : k = k₀
    · subst hk
      simp [List.lookup] at h
      simp [h]
    · have hb : (k == k₀) = false := beq_eq_false_iff_ne.mpr hk
      simp only [List.lookup, hb] at h
      exact List.mem_cons_of_mem _ (ih h)

theorem groupFold_lookup {α κ : Type} [DecidableEq κ] (key : α → Option κ) :
    ∀ (l : List α) (acc : List (κ × List α)) (k : κ),
      List.lookup k (l.foldl (groupStep key) acc) =
        match List.lookup k acc with
        | some fs => some (fs ++ l.filter (fun a => decide (key a = some k)))
        | none =>
            if (l.filter (fun a => decide (key a = some k))).isEmpty then none
            else some (l.filter (fun a => decide (key a = some k))) := by
  intro l
  induction l with
  | nil =>
    intro acc k
    cases h : List.lookup k acc <;> simp [h]
  | cons a l ih =>
    intro acc k
    rw [List.foldl_cons]
    cases hk : key a with
    | none =>
      have hpred : (decide (key a = some k)) = false := by simp [hk]
      rw [List.filter_cons_of_neg (by simp [hpred])]
      simp only [groupStep, hk]
      exact ih acc k
    | some k₀ =>
      simp only [groupStep, hk]
      by_cases hkk : k₀ = k
      · subst hkk
        have hpred : (decide (key a = some k₀)) = true := by simp [hk]
        rw [List.filter_cons_of_pos (by simp [hpred])]
        rw [ih (addToGroup acc k₀ a) k₀]
        rw [addToGroup_lookup acc k₀ k₀ a, if_pos rfl]
        cases h : List.lookup k₀ acc <;> simp [h]
      · have hpred : (decide (key a = some k)) = false := by simp [hk]; exact hkk
        rw [List.filter_cons_of_neg (by simp [hpred])]
        rw [ih (addToGroup acc k₀ a) k]
        rw [addToGroup_lookup acc k₀ k a, if_neg (fun hh => hkk hh.symm)]

theorem groupByKey_lookup {α κ : Type} [DecidableEq κ] (key : α → Option κ) (l : List α) (k : κ) :
    List.lookup k (groupByKey key l) =
      if (l.filter (fun a => decide (key a = some k))).isEmpty then none
      else some (l.filter (fun a => decide (key a = some k))) := by
  have h := groupFold_lookup key l [] k
  simpa [groupByKey, List.lookup] using h

theorem insertNew_nodup {κ : Type} [DecidableEq κ] (ks : List κ) (k : κ) (h : ks.Nodup) :
    (insertNew ks k).Nodup := by
  unfold insertNew
  by_cases hmem : k ∈ ks
  · simpa [hmem] using h
  · simp only [hmem, if_false]
    rw [List.nodup_append]
    refine ⟨h, List.nodup_singleton k, ?_⟩
    intro b hb hbk
    rw [List.mem_singleton] at hbk
    subst hbk
    exact hmem hb

theorem groupFold_keys_nodup {α κ : Type} [DecidableEq κ] (key : α → Option κ) :
    ∀ (l : List α) (acc : List (κ × List α)),
      (acc.map Prod.fst).Nodup → ((l.foldl (groupStep key) acc).map Prod.fst).Nodup := by
  intro l
  induction l with
  | nil => intro acc h; simpa using h
  | cons a l ih =>
    intro acc h
    rw [List.foldl_cons]
    cases hk : key a with
    | none => simp only [groupStep, hk]; exact ih acc h
    | some k₀ =>
      simp only [groupStep, hk]
      exact ih _ (by rw [addToGroup_map_fst]; exact insertNew_nodup _ _ h)

theorem groupByKey_keys_nodup {α κ : Type} [DecidableEq κ] (key : α → Option κ) (l : List α) :
    ((groupByKey key l).map Prod.fst).Nodup :=
  groupFold_keys_nodup key l [] (by simp)

theorem groupByKey_mem_iff {α κ : Type} [DecidableEq κ] (key : α → Option κ) (l : List α)
    (k : κ) (fs : List α) :
    (k, fs) ∈ groupByKey key l ↔
      (fs = l.filter (fun a => decide (key a = some k)) ∧ fs ≠ []) := by
  constructor
  · intro hmem
    have hl := lookup_of_mem_of_nodupKeys _ _ _ (groupByKey_keys_nodup key l) hmem
    rw [groupByKey_lookup] at hl
    by_cases he : (l.filter (fun a => decide (key a = some k))).isEmpty
    · simp [he] at hl
    · rw [if_neg he] at hl
      have hfs : fs = l.filter (fun a => decide (key a = some k)) := (Option.some.inj hl).symm
      refine ⟨hfs, ?_⟩
      intro hnil
      rw [List.isEmpty_iff] at he
      exact he (hfs ▸ hnil)
  · rintro ⟨hfs, hne⟩
    have he : (l.filter (fun a => decide (key a = some k))).isEmpty = false := by
      rw [List.isEmpty_eq_false_iff_exists_mem]
      rcases List.exists_mem_of_ne_nil fs hne with ⟨x, hx⟩
      exact ⟨x, hfs ▸ hx⟩
    apply mem_of_lookup_eq_some
    rw [groupByKey_lookup, he]
    simp [hfs]

theorem groupFold_keys {α κ : Type} [DecidableEq κ] (key : α → Option κ) :
    ∀ (l : List α) (acc : List (κ × List α)),
      (l.foldl (groupStep key) acc).map Prod.fst =
        (l.filterMap key).foldl insertNew (acc.map Prod.fst) := by
  intro l
  induction l with
  | nil => intro acc; simp
  | cons a l ih =>
    intro acc
    rw [List.foldl_cons]
    cases hk : key a with
    | none => simp only [groupStep, hk, List.filterMap_cons_none hk]; exact ih acc
    | some k₀ =>
      simp only [groupStep, hk, List.filterMap_cons_some hk]
      rw [ih, addToGroup_map_fst, List.foldl_cons]

theorem groupByKey_keys {α κ : Type} [DecidableEq κ] (key : α → Option κ) (l : List α) :
    (groupByKey key l).map Prod.fst = (l.filterMap key).foldl insertNew [] := by
  have h := groupFold_keys key l []
  simpa [groupByKey] using h

theorem addToGroup_sizes {α κ : Type} [DecidableEq κ] (acc : List (κ × List α)) (k : κ) (a : α) :
    ((addToGroup acc k a).map (fun g => g.2.length)).sum = ((acc.map (fun g => g.2.length)).sum) + 1 := by
  induction acc with
  | nil => simp [addToGroup]
  | cons p rest ih =>
    obtain ⟨k', as⟩ := p
    by_cases h : k' = k
    · subst h; simp [addToGroup]; omega
    · simp [addToGroup, h, ih]; omega

theorem groupFold_sizes {α κ : Type} [DecidableEq κ] (key : α → Option κ) :
    ∀ (l : List α) (acc : List (κ × List α)),
      ((l.foldl (groupStep key) acc).map (fun g => g.2.length)).sum =
        ((acc.map (fun g => g.2.length)).sum) + l.countP (fun a => (key a).isSome) := by
  intro l
  induction l with
  | nil => intro acc; simp
  | cons a l ih =>
    intro acc
    rw [List.foldl_cons]
    cases hk : key a with
    | none =>
      simp only [groupStep, hk]
      rw [ih, List.countP_cons_of_neg _ _ (by simp [hk])]
    | some k₀ =>
      simp only [groupStep, hk]
      rw [ih, addToGroup_sizes, List.countP_cons_of_pos _ _ (by simp [hk])]
      omega

theorem groupByKey_sizes {α κ : Type} [DecidableEq κ] (key : α → Option κ) (l : List α) :
    ((groupByKey key l).map (fun g => g.2.length)).sum = l.countP (fun a => (key a).isSome) := by
  have h := groupFold_sizes key l []
  simpa [groupByKey] using h

theorem countP_fst_le_one {α κ : Type} [DecidableEq κ] (l : List (κ × List α)) (k : κ)
    (hnd : (l.map Prod.fst).Nodup) :
    l.countP (fun w => decide (w.1 = k)) ≤ 1 := by
  induction l with
  | nil => simp
  | cons w t ih =>
    simp only [List.map_cons, List.nodup_cons] at hnd
    by_cases hw : w.1 = k
    · rw [List.countP_cons_of_pos _ _ (by simpa using hw)]
      have : t.countP (fun w => decide (w.1 = k)) = 0 := by
        rw [List.countP_eq_zero]
        intro q hq
        simp only [decide_eq_true_eq]
        intro hqk
        exact hnd.1 (hw ▸ hqk ▸ List.mem_map.mpr ⟨q, hq, rfl⟩)
      omega
    · rw [List.countP_cons_of_neg _ _ (by simpa using hw)]
      exact ih hnd.2

/-- One observed network transfer (`TrafficFlow` in `app/models.py`).
Timestamps are seconds since the epoch as exact rationals, byte counts and
ports are integers, relay identifiers are optional strings. -/
structure TrafficFlow where
  id : String
  timestamp : ℚ
  source_ip : String
  destination_ip : String
  source_port : ℤ
  destination_port : ℤ
  protocol : String
  bytes_sent : ℤ
  bytes_received : ℤ
  duration : ℚ
  entry_node : Option String
  exit_node : Option String
  circuit_id : Option String
deriving DecidableEq

/-- Timing-evidence payload stored in `Correlation.timing_analysis` by
`_calculate_timing_correlation` (timestamps kept as rationals instead of
ISO-formatted strings). -/
structure TimingEvidence where
  time_difference : ℚ
  timing_score : ℚ
  volume_score : ℚ
  entry_timestamp : ℚ
  exit_timestamp : ℚ
deriving DecidableEq

/-- Pattern-evidence payload stored in `Correlation.traffic_pattern` by
`_create_pattern_correlation`. -/
structure PatternEvidence where
  cluster_size : ℕ
  pattern_consistency : ℚ
  avg_bytes_sent : ℚ
  avg_bytes_received : ℚ
  avg_duration : ℚ
deriving DecidableEq

/-- A scored correlation hypothesis (`Correlation` in `app/models.py`),
restricted to the fields the correlation engine reads or writes. -/
structure Correlation where
  id : String
  entry_node : String
  exit_node : String
  origin_ip : String
  destination_ip : String
  confidence_score : ℚ
  correlation_method : String
  timing_analysis : Option TimingEvidence
  traffic_pattern : Option PatternEvidence
deriving DecidableEq

/-- Python `int(...)` on a number: truncation toward zero. -/
def pyInt (q : ℚ) : ℤ := if 0 ≤ q then ⌊q⌋ else ⌈q⌉

/-- Python `max(enum, key=xs.count)`: scan `enum` keeping the first element
whose count in `xs` is maximal (Python `max` keeps the earliest optimum).
`enum` stands for the iteration order of `set(xs)`, which CPython does not
specify; it is passed in explicitly.  `max` of an empty iterable raises, but
every call site guards against the empty case. -/
def pyMaxByCount (enum : List String) (xs : List String) : String :=
  match enum with
  | [] => ""
  | h :: t => t.foldl (fun best cand => if xs.count best < xs.count cand then cand else best) h

namespace CorrelationService

/-- Timing score from `_calculate_timing_correlation`:
`1.0 - abs(time_diff - 4.0) / 2.0`, optimal at 4 seconds. -/
def timing_score_of (time_diff : ℚ) : ℚ := 1 - |time_diff - 4| / 2

/-- Byte-volume ratio from `_calculate_volume_correlation`:
`min(entry_total, exit_total) / max(entry_total, exit_total)` over each
flow's total of bytes sent and received. -/
def volume_ratio (entry_flow exit_flow : TrafficFlow) : ℚ :=
  ((min (entry_flow.bytes_sent + entry_flow.bytes_received)
        (exit_flow.bytes_sent + exit_flow.bytes_received) : ℤ) : ℚ)
    / ((max (entry_flow.bytes_sent + entry_flow.bytes_received)
            (exit_flow.bytes_sent + exit_flow.bytes_received) : ℤ) : ℚ)

/-- Volume correlation from `_calculate_volume_correlation`: compares the
total bytes of the entry and exit flows and returns a step-function score. -/
def calculate_volume_correlation (entry_flow exit_flow : TrafficFlow) : ℚ :=
  let entry_total := entry_flow.bytes_sent + entry_flow.bytes_received
  let exit_total := exit_flow.bytes_sent + exit_flow.bytes_received
  if entry_total = 0 ∧ exit_total = 0 then 1
  else if entry_total = 0 ∨ exit_total = 0 then 0
  else
    if 0.8 ≤ volume_ratio entry_flow exit_flow then 1
    else if 0.6 ≤ volume_ratio entry_flow exit_flow then 0.7
    else if 0.4 ≤ volume_ratio entry_flow exit_flow then 0.4
    else 0.1

/-- Combined score from `_calculate_timing_correlation`:
`(timing_score * 0.6) + (volume_score * 0.4)`. -/
def combined_score (e x : TrafficFlow) : ℚ :=
  timing_score_of (x.timestamp - e.timestamp) * 0.6 + calculate_volume_correlation e x * 0.4

/-- Eligibility window from `_calculate_timing_correlation`: the expected
circuit build time, `min_delay = 2.0 <= time_diff <= max_delay = 6.0`. -/
def eligible_pair (e x : TrafficFlow) : Prop :=
  2 ≤ x.timestamp - e.timestamp ∧ x.timestamp - e.timestamp ≤ 6

instance (e x : TrafficFlow) : Decidable (eligible_pair e x) := by
  unfold eligible_pair
  infer_instance

/-- The `Correlation` object built by `_calculate_timing_correlation` for an
entry/exit flow pair that improves on the best score so far. -/
def mk_timing_correlation (entry_node exit_node : String) (e x : TrafficFlow) : Correlation :=
  { id := "corr_" ++ entry_node.take 8 ++ "_" ++ exit_node.take 8 ++ "_" ++ toString (pyInt e.timestamp)
    entry_node := entry_node
    exit_node := exit_node
    origin_ip := e.source_ip
    destination_ip := x.destination_ip
    confidence_score := combined_score e x
    correlation_method := "timing_analysis"
    timing_analysis := some
      { time_difference := x.timestamp - e.timestamp
        timing_score := timing_score_of (x.timestamp - e.timestamp)
        volume_score := calculate_volume_correlation e x
        entry_timestamp := e.timestamp
        exit_timestamp := x.timestamp }
    traffic_pattern := none }

/-- Loop body of `_calculate_timing_correlation`: skip pairs outside the
2–6 second delay window, otherwise keep the pair iff it strictly improves the
best combined score seen so far. -/
def timing_step (entry_node exit_node : String) (acc : ℚ × Option Correlation)
    (p : TrafficFlow × TrafficFlow) : ℚ × Option Correlation :=
  if eligible_pair p.1 p.2 then
    if acc.1 < combined_score p.1 p.2 then
      (combined_score p.1 p.2, some (mk_timing_correlation entry_node exit_node p.1 p.2))
    else acc
  else acc

/-- `_calculate_timing_correlation`: scan the cross product of entry and exit
flows (entry-major order), tracking the best-scoring eligible pair; returns
`none` when no eligible pair beats the initial best score `0.0`. -/
def calculate_timing_correlation (entry_node : String) (entry_flows : List TrafficFlow)
    (exit_node : String) (exit_flows : List TrafficFlow) : Option Correlation :=
  ((entry_flows.flatMap (fun e => exit_flows.map (fun x => (e, x)))).foldl
    (timing_step entry_node exit_node) (0, none)).2

/-- Guard from `_timing_analysis`: keep a correlation only when it exists
and its confidence score exceeds `0.5`. -/
def keep_if_confident (oc : Option Correlation) : Option Correlation :=
  match oc with
  | some c => if 0.5 < c.confidence_score then some c else none
  | none => none

/-- `_timing_analysis`: index the window's flows by entry node and by exit
node (Python dicts, insertion-ordered), evaluate every relay-pair, and keep
the correlations whose confidence exceeds `0.5`. -/
def timing_analysis (flows : List TrafficFlow) : List Correlation :=
  (groupByKey (fun f => f.entry_node) flows).flatMap (fun ep =>
    (groupByKey (fun f => f.exit_node) flows).filterMap (fun xp =>
      keep_if_confident (calculate_timing_correlation ep.1 ep.2 xp.1 xp.2)))

end CorrelationService

theorem countP_filterMap_zero {α β : Type} (g : α → Option β) (P : β → Bool) (l : List α)
    (h : ∀ a ∈ l, ∀ r, g a = some r → P r = false) :
    (l.filterMap g).countP P = 0 := by
  rw [List.countP_eq_zero]
  intro r hr
  rcases List.mem_filterMap.mp hr with ⟨a, ha, hga⟩
  simp [h a ha r hga]

theorem countP_filterMap_le {α β : Type} (g : α → Option β) (P : β → Bool) (Q : α → Bool)
    (l : List α) (h : ∀ a ∈ l, ∀ r, g a = some r → P r = true → Q a = true) :
    (l.filterMap g).countP P ≤ l.countP Q := by
  induction l with
  | nil => simp
  | cons a l ih =>
    have ih' := ih (fun a' ha' => h a' (List.mem_cons_of_mem _ ha'))
    cases hga : g a with
    | none =>
      simp only [List.filterMap_cons, hga]
      rcases hQ : Q a with _ | _
      · simpa [List.countP_cons, hQ] using ih'
      · rw [List.countP_cons_of_pos _ _ (by simp [hQ])]
        omega
    | some r =>
      simp only [List.filterMap_cons, hga]
      by_cases hP : P r = true
      · have hQ := h a (List.mem_cons_self a l) r hga hP
        rw [List.countP_cons_of_pos _ _ (by simp [hP]),
            List.countP_cons_of_pos _ _ (by simp [hQ])]
        omega
      · rw [List.countP_cons_of_neg _ _ (by simpa using hP)]
        rcases hQ : Q a with _ | _
        · simpa [List.countP_cons, hQ] using ih'
        · rw [List.countP_cons_of_pos _ _ (by simp [hQ])]
          omega

theorem countP_flatMap_zero {α β : Type} (f : α → List β) (P : β → Bool) (l : List α)
    (h : ∀ a ∈ l, (f a).countP P = 0) :
    (l.flatMap f).countP P = 0 := by
  induction l with
  | nil => simp
  | cons a l ih =>
    rw [List.flatMap_cons, List.countP_append, h a (List.mem_cons_self a l),
        ih (fun a' ha' => h a' (List.mem_cons_of_mem _ ha'))]

theorem countP_flatMap_le_one {α β : Type} (f : α → List β) (P : β → Bool) (K : α → Bool)
    (l : List α) (hK : l.countP K ≤ 1)
    (h0 : ∀ a ∈ l, K a = false → (f a).countP P = 0)
    (h1 : ∀ a ∈ l, (f a).countP P ≤ 1) :
    (l.flatMap f).countP P ≤ 1 := by
  induction l with
  | nil => simp
  | cons a l ih =>
    rw [List.flatMap_cons, List.countP_append]
    rcases hKa : K a with _ | _
    · rw [h0 a (List.mem_cons_self a l) hKa]
      have hK' : l.countP K ≤ 1 := by
        rw [List.countP_cons_of_neg _ _ (by simp [hKa])] at hK
        exact hK
      simpa using ih hK' (fun a' ha' => h0 a' (List.mem_cons_of_mem _ ha'))
        (fun a' ha' => h1 a' (List.mem_cons_of_mem _ ha'))
    · have hrest : l.countP K = 0 := by
        rw [List.countP_cons_of_pos _ _ (by simp [hKa])] at hK
        omega
      have hz : (l.flatMap f).countP P = 0 := by
        apply countP_flatMap_zero
        intro a' ha'
        have : K a' = false := by
          have := (List.countP_eq_zero.mp hrest) a' ha'
          simpa using this
        exact h0 a' (List.mem_cons_of_mem _ ha') this
      rw [hz]
      simpa using h1 a (List.mem_cons_self a l)

namespace CorrelationService

theorem timing_step_eq (en xn : String) (acc : ℚ × Option Correlation)
    (p : TrafficFlow × TrafficFlow) :
    timing_step en xn acc p =
      if eligible_pair p.1 p.2 ∧ acc.1 < combined_score p.1 p.2 then
        (combined_score p.1 p.2, some (mk_timing_correlation en xn p.1 p.2))
      else acc := by
  unfold timing_step
  by_cases h1 : eligible_pair p.1 p.2
  · by_cases h2 : acc.1 < combined_score p.1 p.2 <;> simp [h1, h2]
  · simp [h1]

theorem timing_fold_spec (en xn : String) :
    ∀ (l : List (TrafficFlow × TrafficFlow)) (b : ℚ) (co : Option Correlation),
      (l.foldl (timing_step en xn) (b, co) = (b, co)
        ∧ ∀ q ∈ l, eligible_pair q.1 q.2 → combined_score q.1 q.2 ≤ b)
      ∨ (∃ l₁ p l₂, l = l₁ ++ p :: l₂
          ∧ eligible_pair p.1 p.2
          ∧ l.foldl (timing_step en xn) (b, co)
              = (combined_score p.1 p.2, some (mk_timing_correlation en xn p.1 p.2))
          ∧ b < combined_score p.1 p.2
          ∧ (∀ q ∈ l₁, eligible_pair q.1 q.2 → combined_score q.1 q.2 < combined_score p.1 p.2)
          ∧ (∀ q ∈ l₂, eligible_pair q.1 q.2 → combined_score q.1 q.2 ≤ combined_score p.1 p.2)) := by
  intro l
  induction l with
  | nil => intro b co; left; exact ⟨rfl, by simp⟩
  | cons p l ih =>
    intro b co
    rw [List.foldl_cons, timing_step_eq]
    by_cases h : eligible_pair p.1 p.2 ∧ b < combined_score p.1 p.2
    · rw [if_pos h]
      rcases ih (combined_score p.1 p.2) (some (mk_timing_correlation en xn p.1 p.2)) with
        ⟨heq, hall⟩ | ⟨l₁, q, l₂, hl, hq, heq, hb, h₁, h₂⟩
      · right
        exact ⟨[], p, l, by simp, h.1, heq, h.2, by simp, hall⟩
      · right
        refine ⟨p :: l₁, q, l₂, by rw [hl]; rfl, hq, heq, lt_trans h.2 hb, ?_, h₂⟩
        intro q' hq' helig
        rcases List.mem_cons.mp hq' with rfl | hmem
        · exact hb
        · exact h₁ q' hmem helig
    · rw [if_neg h]
      rw [not_and_or, not_lt] at h
      have hle : eligible_pair p.1 p.2 → combined_score p.1 p.2 ≤ b := by
        intro he
        rcases h with hne | hle
        · exact absurd he hne
        · exact hle
      rcases ih b co with ⟨heq, hall⟩ | ⟨l₁, q, l₂, hl, hq, heq, hb, h₁, h₂⟩
      · left
        refine ⟨heq, ?_⟩
        intro q' hq' helig
        rcases List.mem_cons.mp hq' with rfl | hmem
        · exact hle helig
        · exact hall q' hmem helig
      · right
        refine ⟨p :: l₁, q, l₂, by rw [hl]; rfl, hq, heq, hb, ?_, h₂⟩
        intro q' hq' helig
        rcases List.mem_cons.mp hq' with rfl | hmem
        · exact lt_of_le_of_lt (hle helig) hb
        · exact h₁ q' hmem helig

/-- The cross-product pair list scanned by `_calculate_timing_correlation`,
in its iteration order (entry flows outer loop, exit flows inner loop). -/
def pair_list (entry_flows exit_flows : List TrafficFlow) : List (TrafficFlow × TrafficFlow) :=
  entry_flows.flatMap (fun e => exit_flows.map (fun x => (e, x)))

theorem calculate_timing_correlation_spec (en xn : String)
    (el xl : List TrafficFlow) (c : Correlation)
    (h : calculate_timing_correlation en el xn xl = some c) :
    ∃ l₁ e x l₂,
      pair_list el xl = l₁ ++ (e, x) :: l₂
      ∧ eligible_pair e x
      ∧ c = mk_timing_correlation en xn e x
      ∧ 0 < combined_score e x
      ∧ (∀ q ∈ l₁, eligible_pair q.1 q.2 → combined_score q.1 q.2 < combined_score e x)
      ∧ (∀ q ∈ l₂, eligible_pair q.1 q.2 → combined_score q.1 q.2 ≤ combined_score e x) := by
  unfold calculate_timing_correlation at h
  rcases timing_fold_spec en xn (el.flatMap (fun e => xl.map (fun x => (e, x)))) 0 none with
    ⟨heq, _⟩ | ⟨l₁, p, l₂, hl, hp, heq, hb, h₁, h₂⟩
  · rw [heq] at h
    simp at h
  · rw [heq] at h
    simp only [Option.some.injEq] at h
    exact ⟨l₁, p.1, p.2, l₂, by rw [Prod.mk.eta]; exact hl, hp, h.symm, hb, h₁, h₂⟩

theorem calculate_timing_correlation_fields (en xn : String)
    (el xl : List TrafficFlow) (c : Correlation)
    (h : calculate_timing_correlation en el xn xl = some c) :
    c.entry_node = en ∧ c.exit_node = xn := by
  rcases calculate_timing_correlation_spec en xn el xl c h with ⟨l₁, e, x, l₂, _, _, hc, _⟩
  subst hc
  exact ⟨rfl, rfl⟩

end CorrelationService

namespace CorrelationService

theorem keep_if_confident_eq_some (oc : Option Correlation) (r : Correlation)
    (h : keep_if_confident oc = some r) :
    oc = some r ∧ 0.5 < r.confidence_score := by
  cases oc with
  | none => simp [keep_if_confident] at h
  | some c =>
    by_cases hc : 0.5 < c.confidence_score
    · simp [keep_if_confident, hc] at h
      subst h
      exact ⟨rfl, hc⟩
    · simp [keep_if_confident, hc] at h

/-- Characterization of a record emitted by `_timing_analysis` for a given
relay pair: it is built from an eligible entry/exit flow pair that is a
maximum of the combined score over the scanned cross product, the earliest
such maximum in scan order, and its confidence exceeds `0.5`. -/
theorem timing_analysis_mem_spec (flows : List TrafficFlow) (r : Correlation) (en xn : String)
    (h : r ∈ timing_analysis flows) (hen : r.entry_node = en) (hxn : r.exit_node = xn) :
    0.5 < r.confidence_score
    ∧ ∃ l₁ e x l₂,
        pair_list (flows.filter (fun f => decide (f.entry_node = some en)))
                  (flows.filter (fun f => decide (f.exit_node = some xn)))
          = l₁ ++ (e, x) :: l₂
        ∧ eligible_pair e x
        ∧ r = mk_timing_correlation en xn e x
        ∧ r.origin_ip = e.source_ip
        ∧ r.destination_ip = x.destination_ip
        ∧ r.confidence_score = combined_score e x
        ∧ (∀ q ∈ l₁, eligible_pair q.1 q.2 → combined_score q.1 q.2 < combined_score e x)
        ∧ (∀ q ∈ l₂, eligible_pair q.1 q.2 → combined_score q.1 q.2 ≤ combined_score e x) := by
  unfold timing_analysis at h
  rcases List.mem_flatMap.mp h with ⟨ep, hep, hin⟩
  rcases List.mem_filterMap.mp hin with ⟨xp, hxp, hkeep⟩
  obtain ⟨en', el⟩ := ep
  obtain ⟨xn', xl⟩ := xp
  rcases keep_if_confident_eq_some _ _ hkeep with ⟨hcalc, hconf⟩
  have hfields := calculate_timing_correlation_fields en' xn' el xl r hcalc
  have hen2 : en = en' := by rw [← hen]; exact hfields.1
  have hxn2 : xn = xn' := by rw [← hxn]; exact hfields.2
  subst hen2
  subst hxn2
  have hel := ((groupByKey_mem_iff (fun f => f.entry_node) flows en el).mp hep).1
  have hxl := ((groupByKey_mem_iff (fun f => f.exit_node) flows xn xl).mp hxp).1
  subst hel
  subst hxl
  rcases calculate_timing_correlation_spec en xn _ _ r hcalc with
    ⟨l₁, e, x, l₂, hdec, helig, hmk, _, h₁, h₂⟩
  refine ⟨hconf, l₁, e, x, l₂, hdec, helig, hmk, ?_, ?_, ?_, h₁, h₂⟩
  · rw [hmk]; rfl
  · rw [hmk]; rfl
  · rw [hmk]; rfl

/-- C2: for every window and fixed (entry relay, exit relay) pair, the timing
correlator emits at most one record; an emitted record matching that pair has
confidence strictly above 0.5, is built from the first best-scoring eligible
flow pair in scan order (ties favour the earlier pair), takes its origin IP
from the entry flow's source and its destination IP from the exit flow's
destination; and when no eligible flow pair scores above 0.5 no record for
that pair is emitted. -/
theorem spec_C2 (flows : List TrafficFlow) (en xn : String) :
    ((timing_analysis flows).countP
        (fun r => decide (r.entry_node = en) && decide (r.exit_node = xn))) ≤ 1
    ∧ (∀ r ∈ timing_analysis flows, r.entry_node = en → r.exit_node = xn →
        0.5 < r.confidence_score
        ∧ ∃ l₁ e x l₂,
            pair_list (flows.filter (fun f => decide (f.entry_node = some en)))
                      (flows.filter (fun f => decide (f.exit_node = some xn)))
              = l₁ ++ (e, x) :: l₂
            ∧ eligible_pair e x
            ∧ r = mk_timing_correlation en xn e x
            ∧ r.origin_ip = e.source_ip
            ∧ r.destination_ip = x.destination_ip
            ∧ r.confidence_score = combined_score e x
            ∧ (∀ q ∈ l₁, eligible_pair q.1 q.2 → combined_score q.1 q.2 < combined_score e x)
            ∧ (∀ q ∈ l₂, eligible_pair q.1 q.2 → combined_score q.1 q.2 ≤ combined_score e x))
    ∧ ((∀ q ∈ pair_list (flows.filter (fun f => decide (f.entry_node = some en)))
                        (flows.filter (fun f => decide (f.exit_node = some xn))),
          eligible_pair q.1 q.2 → combined_score q.1 q.2 ≤ 0.5) →
        ∀ r ∈ timing_analysis flows, ¬(r.entry_node = en ∧ r.exit_node = xn)) := by
  refine ⟨?_, ?_, ?_⟩
  · unfold timing_analysis
    apply countP_flatMap_le_one _ _ (fun ep => decide (ep.1 = en))
    · exact countP_fst_le_one _ en (groupByKey_keys_nodup _ flows)
    · intro ep _ hKa
      apply countP_filterMap_zero
      intro xp _ r hkeep
      rcases keep_if_confident_eq_some _ _ hkeep with ⟨hcalc, _⟩
      have hfields := calculate_timing_correlation_fields ep.1 xp.1 ep.2 xp.2 r hcalc
      simp only [decide_eq_true_eq] at hKa ⊢
      simp only [Bool.and_eq_false_iff, decide_eq_false_iff_not]
      left
      rw [hfields.1]
      simpa using hKa
    · intro ep _
      calc ((groupByKey (fun f => f.exit_node) flows).filterMap
              (fun xp => keep_if_confident (calculate_timing_correlation ep.1 ep.2 xp.1 xp.2))).countP
              (fun r => decide (r.entry_node = en) && decide (r.exit_node = xn))
          ≤ (groupByKey (fun f => f.exit_node) flows).countP (fun xp => decide (xp.1 = xn)) := by
            apply countP_filterMap_le
            intro xp _ r hkeep hP
            rcases keep_if_confident_eq_some _ _ hkeep with ⟨hcalc, _⟩
            have hfields := calculate_timing_correlation_fields ep.1 xp.1 ep.2 xp.2 r hcalc
            simp only [Bool.and_eq_true, decide_eq_true_eq] at hP
            simp only [decide_eq_true_eq]
            rw [← hfields.2]
            exact hP.2
        _ ≤ 1 := countP_fst_le_one _ xn (groupByKey_keys_nodup _ flows)
  · intro r hr hen hxn
    exact timing_analysis_mem_spec flows r en xn hr hen hxn
  · intro hall r hr hmatch
    rcases timing_analysis_mem_spec flows r en xn hr hmatch.1 hmatch.2 with
      ⟨hconf, l₁, e, x, l₂, hdec, helig, _, _, _, hscore, _, _⟩
    have hmem : (e, x) ∈ pair_list (flows.filter (fun f => decide (f.entry_node = some en)))
                        (flows.filter (fun f => decide (f.exit_node = some xn))) := by
      rw [hdec]
      exact List.mem_append_right _ (List.mem_cons_self _ _)
    have := hall (e, x) hmem helig
    rw [← hscore] at this
    exact absurd hconf (not_lt.mpr this)

end CorrelationService

namespace CorrelationService

/-- Calendar-aligned window start from `_group_by_time_windows`:
`timestamp.replace(second=0, microsecond=0) - timedelta(minutes=timestamp.minute % (window_size // 60))`,
on timestamps in epoch seconds.  `window_size / 60` is Python integer
division; callers must keep it non-zero. -/
def window_start (window_size : ℕ) (t : ℚ) : ℚ :=
  60 * ((⌊t / 60⌋ : ℤ) : ℚ)
    - 60 * ((((⌊t / 60⌋ : ℤ).emod 60).emod ((window_size / 60 : ℕ) : ℤ) : ℤ) : ℚ)

/-- `_group_by_time_windows`: group flows into insertion-ordered buckets by
window start.  When `window_size // 60` is zero, Python raises
`ZeroDivisionError` (`minute % 0`) at the first flow; that is modelled as
`none`. -/
def group_by_time_windows (window_size : ℕ) (flows : List TrafficFlow) :
    Option (List (ℚ × List TrafficFlow)) :=
  flows.foldlM
    (fun acc f =>
      if window_size / 60 = 0 then none
      else some (addToGroup acc (window_start window_size f.timestamp) f))
    []

/-- `_create_pattern_correlation`.  `so` supplies the iteration order of the
Python `set(...)` of node ids, which CPython leaves unspecified (it depends
on string hash randomization), hence a parameter; `now` is the value of
`datetime.utcnow().timestamp()`, read from the wall clock and used only in
the record id. -/
def pattern_entry_choice (so : List String → List String) (flows : List TrafficFlow) : String :=
  pyMaxByCount (so (flows.filterMap (fun f => f.entry_node))) (flows.filterMap (fun f => f.entry_node))

def pattern_exit_choice (so : List String → List String) (flows : List TrafficFlow) : String :=
  pyMaxByCount (so (flows.filterMap (fun f => f.exit_node))) (flows.filterMap (fun f => f.exit_node))

/-- Pattern-consistency confidence from `_create_pattern_correlation`:
the fraction of cluster members whose entry and exit nodes both equal the
chosen modal pair. -/
def cluster_confidence (entry_node exit_node : String) (flows : List TrafficFlow) : ℚ :=
  ((flows.filter (fun f =>
      decide (f.entry_node = some entry_node) && decide (f.exit_node = some exit_node))).length : ℚ)
    / (flows.length : ℚ)

def create_pattern_correlation (so : List String → List String) (now : ℚ)
    (flows : List TrafficFlow) : Option Correlation :=
  if flows.filterMap (fun f => f.entry_node) = [] ∨ flows.filterMap (fun f => f.exit_node) = []
  then none
  else if cluster_confidence (pattern_entry_choice so flows) (pattern_exit_choice so flows) flows
      < 0.3 then none
  else
    match flows with
    | [] => none
    | representative_flow :: _ =>
      some
        { id := "pattern_" ++ (pattern_entry_choice so flows).take 8 ++ "_"
            ++ (pattern_exit_choice so flows).take 8 ++ "_" ++ toString (pyInt now)
          entry_node := pattern_entry_choice so flows
          exit_node := pattern_exit_choice so flows
          origin_ip := representative_flow.source_ip
          destination_ip := representative_flow.destination_ip
          confidence_score := cluster_confidence (pattern_entry_choice so flows)
            (pattern_exit_choice so flows) flows
          correlation_method := "pattern_analysis"
          timing_analysis := none
          traffic_pattern := some
            { cluster_size := flows.length
              pattern_consistency := cluster_confidence (pattern_entry_choice so flows)
                (pattern_exit_choice so flows) flows
              avg_bytes_sent := (((flows.map (fun f => f.bytes_sent)).sum : ℤ) : ℚ) / (flows.length : ℚ)
              avg_bytes_received := (((flows.map (fun f => f.bytes_received)).sum : ℤ) : ℚ) / (flows.length : ℚ)
              avg_duration := (flows.map (fun f => f.duration)).sum / (flows.length : ℚ) } }

/-- Cluster key from `_pattern_analysis`: DBSCAN noise labels `-1` are dropped. -/
def cluster_key (p : ℤ × TrafficFlow) : Option ℤ :=
  if p.1 = -1 then none else some p.1

/-- `_pattern_analysis`.  The sklearn pipeline (`StandardScaler` followed by
`DBSCAN(eps=0.5, min_samples=2)`) computes one label per filtered flow in
floating point; that label assignment enters as the parameter `labels`
(`-1` marks noise).  Everything downstream of the labels follows the source:
group label-carrying flows into insertion-ordered clusters and emit one
correlation per cluster of at least two flows. -/
def pattern_analysis (so : List String → List String) (labels : List ℤ) (now : ℚ)
    (flows : List TrafficFlow) : List Correlation :=
  let flow_data := flows.filter (fun f => f.entry_node.isSome && f.exit_node.isSome)
  if flow_data.length < 2 then []
  else
    (groupByKey cluster_key (labels.zip flow_data)).filterMap
      (fun cl =>
        if 2 ≤ (cl.2.map Prod.snd).length then
          create_pattern_correlation so now (cl.2.map Prod.snd)
        else none)

/-- Overlap test from `_combine_correlations`: exact match on entry relay,
exit relay and origin IP. -/
def overlaps (pattern_corr timing_corr : Correlation) : Prop :=
  pattern_corr.entry_node = timing_corr.entry_node
  ∧ pattern_corr.exit_node = timing_corr.exit_node
  ∧ pattern_corr.origin_ip = timing_corr.origin_ip

instance (p t : Correlation) : Decidable (overlaps p t) := by
  unfold overlaps
  infer_instance

/-- `_combine_correlations`: start from all timing correlations and append
each pattern correlation that overlaps no timing correlation. -/
def combine_correlations (timing_correlations pattern_correlations : List Correlation) :
    List Correlation :=
  pattern_correlations.foldl
    (fun combined pattern_corr =>
      if ∃ timing_corr ∈ timing_correlations, overlaps pattern_corr timing_corr then combined
      else combined ++ [pattern_corr])
    timing_correlations

/-- Per-record step of `_ai_enhance_correlations`: boost confidence by 10%
(capped at 1.0) when it already exceeds 0.7, otherwise leave it unchanged. -/
def ai_enhance_one (c : Correlation) : Correlation :=
  if 0.7 < c.confidence_score then
    { c with confidence_score := min 1 (c.confidence_score * 1.1) }
  else c

/-- `_ai_enhance_correlations` (the AI path is disabled in the source): map
the deterministic confidence boost over the list. -/
def ai_enhance_correlations (correlations : List Correlation) : List Correlation :=
  correlations.map ai_enhance_one

/-- `analyze_traffic_correlation`: partition into 300-second windows (the
`_group_by_time_windows` default; `analyze` never passes another size), run
timing and pattern analysis per window, combine, enhance, and concatenate in
window insertion order.  The surrounding `try/except` returns `[]` if any
step raises. -/
def analyze_traffic_correlation (so : List String → List String)
    (labels_for : List TrafficFlow → List ℤ) (now : ℚ)
    (traffic_flows : List TrafficFlow) : List Correlation :=
  match group_by_time_windows 300 traffic_flows with
  | none => []
  | some time_windows =>
      time_windows.flatMap (fun w =>
        ai_enhance_correlations
          (combine_correlations (timing_analysis w.2)
            (pattern_analysis so (labels_for w.2) now w.2)))

end CorrelationService

namespace CorrelationService

theorem combine_fold_eq (timing : List Correlation) :
    ∀ (pattern acc : List Correlation),
      pattern.foldl
        (fun combined pattern_corr =>
          if ∃ timing_corr ∈ timing, overlaps pattern_corr timing_corr then combined
          else combined ++ [pattern_corr])
        acc
      = acc ++ pattern.filter (fun pc => decide (¬ ∃ tc ∈ timing, overlaps pc tc)) := by
  intro pattern
  induction pattern with
  | nil => intro acc; simp
  | cons pc pattern ih =>
    intro acc
    rw [List.foldl_cons]
    by_cases h : ∃ tc ∈ timing, overlaps pc tc
    · rw [if_pos h, ih, List.filter_cons_of_neg (by simpa using h)]
    · rw [if_neg h, ih, List.filter_cons_of_pos (by simpa using h)]
      simp

theorem combine_correlations_eq (timing pattern : List Correlation) :
    combine_correlations timing pattern
      = timing ++ pattern.filter (fun pc => decide (¬ ∃ tc ∈ timing, overlaps pc tc)) := by
  unfold combine_correlations
  exact combine_fold_eq timing pattern timing

/-- C10: the merger deduplicates pattern records only against timing records,
never against each other: the output is exactly the timing records in input
order followed, in input order, by the pattern records that overlap no timing
record on the (entry relay, exit relay, origin IP) triple; in particular two
pattern records sharing a triple that no timing record matches both appear. -/
theorem spec_C10 (timing pattern : List Correlation) :
    combine_correlations timing pattern
      = timing ++ pattern.filter (fun pc => decide (¬ ∃ tc ∈ timing, overlaps pc tc))
    ∧ (∀ c ∈ pattern, (∀ tc ∈ timing, ¬ overlaps c tc) →
        c ∈ combine_correlations timing pattern) := by
  refine ⟨combine_correlations_eq timing pattern, ?_⟩
  intro c hc hno
  rw [combine_correlations_eq]
  apply List.mem_append_right
  rw [List.mem_filter]
  refine ⟨hc, ?_⟩
  simp only [decide_eq_true_eq]
  rintro ⟨tc, htc, hov⟩
  exact hno tc htc hov

/-- C3: the merger keeps every timing record unchanged (with its own method
tag and evidence), drops a pattern record exactly when some timing record
matches its entry relay, exit relay and origin IP, merges no evidence into
timing records, and surviving pattern records keep the method tag
`pattern_analysis` they carried on input. -/
theorem spec_C3 (timing pattern : List Correlation) :
    (combine_correlations timing pattern).take timing.length = timing
    ∧ (combine_correlations timing pattern).drop timing.length
        = pattern.filter (fun pc => decide (¬ ∃ tc ∈ timing, overlaps pc tc))
    ∧ (∀ c ∈ pattern,
        ((∃ tc ∈ timing, overlaps c tc)
          ↔ c ∉ (combine_correlations timing pattern).drop timing.length))
    ∧ ((∀ c ∈ pattern, c.correlation_method = "pattern_analysis") →
        ∀ c ∈ (combine_correlations timing pattern).drop timing.length,
          c.correlation_method = "pattern_analysis") := by
  have heq := combine_correlations_eq timing pattern
  have htake : (combine_correlations timing pattern).take timing.length = timing := by
    rw [heq, List.take_left]
  have hdrop : (combine_correlations timing pattern).drop timing.length
      = pattern.filter (fun pc => decide (¬ ∃ tc ∈ timing, overlaps pc tc)) := by
    rw [heq, List.drop_left]
  refine ⟨htake, hdrop, ?_, ?_⟩
  · intro c hc
    rw [hdrop]
    constructor
    · rintro ⟨tc, htc, hov⟩ hmem
      rw [List.mem_filter] at hmem
      have := hmem.2
      simp only [decide_eq_true_eq] at this
      exact this ⟨tc, htc, hov⟩
    · intro hnot
      by_contra hov
      apply hnot
      rw [List.mem_filter]
      refine ⟨hc, ?_⟩
      simp only [decide_eq_true_eq]
      intro hex
      exact hov hex
  · intro hall c hc
    rw [hdrop, List.mem_filter] at hc
    exact hall c hc.1

/-- C1: for every entry/exit flow pair evaluated by the timing correlator,
the pair is considered only when the delay lies in [2, 6] seconds; the
combined score is 0.6 times the timing score plus 0.4 times the volume
score; the timing score is `1 - |delay - 4| / 2`, equal to 1 exactly at
delay 4 and equal to 0 at delays 2 and 6; and the volume score over the two
flows' byte totals is 1 when both are zero, 0 when exactly one is zero, and
otherwise the step function of their min/max ratio (1 at ratio at least 0.8,
0.7 at ratio at least 0.6, 0.4 at ratio at least 0.4, 0.1 below). -/
theorem spec_C1 (en xn : String) (acc : ℚ × Option Correlation) (e x : TrafficFlow) (d : ℚ) :
    (eligible_pair e x ↔ 2 ≤ x.timestamp - e.timestamp ∧ x.timestamp - e.timestamp ≤ 6)
    ∧ (¬ eligible_pair e x → timing_step en xn acc (e, x) = acc)
    ∧ combined_score e x
        = 0.6 * timing_score_of (x.timestamp - e.timestamp)
          + 0.4 * calculate_volume_correlation e x
    ∧ timing_score_of d = 1 - |d - 4| / 2
    ∧ (timing_score_of d = 1 ↔ d = 4)
    ∧ timing_score_of 2 = 0
    ∧ timing_score_of 6 = 0
    ∧ (e.bytes_sent + e.bytes_received = 0 ∧ x.bytes_sent + x.bytes_received = 0 →
        calculate_volume_correlation e x = 1)
    ∧ (e.bytes_sent + e.bytes_received = 0 ∧ x.bytes_sent + x.bytes_received ≠ 0 →
        calculate_volume_correlation e x = 0)
    ∧ (e.bytes_sent + e.bytes_received ≠ 0 ∧ x.bytes_sent + x.bytes_received = 0 →
        calculate_volume_correlation e x = 0)
    ∧ (e.bytes_sent + e.bytes_received ≠ 0 → x.bytes_sent + x.bytes_received ≠ 0 →
        ((0.8 ≤ volume_ratio e x → calculate_volume_correlation e x = 1)
        ∧ (volume_ratio e x < 0.8 → 0.6 ≤ volume_ratio e x →
            calculate_volume_correlation e x = 0.7)
        ∧ (volume_ratio e x < 0.6 → 0.4 ≤ volume_ratio e x →
            calculate_volume_correlation e x = 0.4)
        ∧ (volume_ratio e x < 0.4 → calculate_volume_correlation e x = 0.1))) := by
  refine ⟨Iff.rfl, ?_, ?_, rfl, ?_, ?_, ?_, ?_, ?_, ?_, ?_⟩
  · intro h
    rw [timing_step_eq, if_neg]
    rintro ⟨helig, _⟩
    exact h helig
  · unfold combined_score
    ring
  · unfold timing_score_of
    constructor
    · intro h
      have habs : |d - 4| = 0 := by linarith
      have := abs_eq_zero.mp habs
      linarith
    · intro h
      subst h
      norm_num
  · unfold timing_score_of
    norm_num [abs_of_nonpos]
  · unfold timing_score_of
    norm_num [abs_of_nonneg]
  · rintro ⟨ha, hb⟩
    simp [calculate_volume_correlation, ha, hb]
  · rintro ⟨ha, hb⟩
    simp [calculate_volume_correlation, ha, hb]
  · rintro ⟨ha, hb⟩
    simp [calculate_volume_correlation, ha, hb]
  · intro ha hb
    refine ⟨?_, ?_, ?_, ?_⟩
    · intro hr
      simp only [calculate_volume_correlation, volume_ratio] at hr ⊢
      rw [if_neg (by tauto), if_neg (by tauto), if_pos hr]
    · intro hr1 hr2
      simp only [calculate_volume_correlation, volume_ratio] at hr1 hr2 ⊢
      rw [if_neg (by tauto), if_neg (by tauto), if_neg (by linarith), if_pos hr2]
    · intro hr1 hr2
      simp only [calculate_volume_correlation, volume_ratio] at hr1 hr2 ⊢
      rw [if_neg (by tauto), if_neg (by tauto), if_neg (by linarith), if_neg (by linarith),
          if_pos hr2]
    · intro hr
      simp only [calculate_volume_correlation, volume_ratio] at hr ⊢
      rw [if_neg (by tauto), if_neg (by tauto), if_neg (by linarith), if_neg (by linarith),
          if_neg (by linarith)]

end CorrelationService

theorem countP_fst_eq_one {α κ : Type} [DecidableEq κ] (l : List (κ × List α)) (k : κ)
    (fs : List α) (hnd : (l.map Prod.fst).Nodup) (hmem : (k, fs) ∈ l) :
    l.countP (fun w => decide (w.1 = k)) = 1 := by
  induction l with
  | nil => simp at hmem
  | cons w t ih =>
    simp only [List.map_cons, List.nodup_cons] at hnd
    rcases List.mem_cons.mp hmem with heq | htail
    · rw [← heq]
      rw [List.countP_cons_of_pos _ _ (by simp)]
      have hz : t.countP (fun w => decide (w.1 = k)) = 0 := by
        rw [List.countP_eq_zero]
        intro q hq
        simp only [decide_eq_true_eq]
        intro hqk
        rw [← heq] at hnd
        exact hnd.1 (hqk ▸ List.mem_map.mpr ⟨q, hq, rfl⟩)
      omega
    · have hw : ¬w.1 = k := by
        intro hh
        exact hnd.1 (hh ▸ List.mem_map.mpr ⟨(k, fs), htail, rfl⟩)
      rw [List.countP_cons_of_neg _ _ (by simpa using hw)]
      exact ih hnd.2 htail

namespace CorrelationService

theorem volume_correlation_bounds (e x : TrafficFlow) :
    0 ≤ calculate_volume_correlation e x ∧ calculate_volume_correlation e x ≤ 1 := by
  simp only [calculate_volume_correlation]
  split_ifs <;> norm_num

theorem timing_score_bounds (d : ℚ) (h2 : 2 ≤ d) (h6 : d ≤ 6) :
    0 ≤ timing_score_of d ∧ timing_score_of d ≤ 1 := by
  unfold timing_score_of
  have habs : |d - 4| ≤ 2 := abs_le.mpr ⟨by linarith, by linarith⟩
  have habs0 : 0 ≤ |d - 4| := abs_nonneg _
  constructor <;> linarith

theorem combined_score_bounds (e x : TrafficFlow) (h : eligible_pair e x) :
    0 ≤ combined_score e x ∧ combined_score e x ≤ 1 := by
  obtain ⟨h2, h6⟩ := h
  have ht := timing_score_bounds (x.timestamp - e.timestamp) h2 h6
  have hv := volume_correlation_bounds e x
  unfold combined_score
  constructor <;> nlinarith [ht.1, ht.2, hv.1, hv.2]

theorem timing_analysis_conf_bounds (flows : List TrafficFlow) (r : Correlation)
    (h : r ∈ timing_analysis flows) :
    0 ≤ r.confidence_score ∧ r.confidence_score ≤ 1 := by
  rcases timing_analysis_mem_spec flows r r.entry_node r.exit_node h rfl rfl with
    ⟨_, l₁, e, x, l₂, _, helig, _, _, _, hscore, _, _⟩
  rw [hscore]
  exact combined_score_bounds e x helig

theorem cluster_confidence_bounds (en xn : String) (flows : List TrafficFlow)
    (h : flows ≠ []) :
    0 ≤ cluster_confidence en xn flows ∧ cluster_confidence en xn flows ≤ 1 := by
  unfold cluster_confidence
  have hlen : 0 < (flows.length : ℚ) := by
    have : 0 < flows.length := List.length_pos.mpr h
    exact_mod_cast this
  constructor
  · positivity
  · rw [div_le_one hlen]
    have hle := List.length_filter_le
      (fun f => decide (f.entry_node = some en) && decide (f.exit_node = some xn)) flows
    exact_mod_cast hle

theorem create_pattern_correlation_conf (so : List String → List String) (now : ℚ)
    (flows : List TrafficFlow) (r : Correlation)
    (h : create_pattern_correlation so now flows = some r) :
    flows ≠ []
    ∧ r.confidence_score
        = cluster_confidence (pattern_entry_choice so flows) (pattern_exit_choice so flows) flows
    ∧ ¬(r.confidence_score < 0.3) := by
  unfold create_pattern_correlation at h
  by_cases h1 : flows.filterMap (fun f => f.entry_node) = [] ∨ flows.filterMap (fun f => f.exit_node) = []
  · rw [if_pos h1] at h
    simp at h
  · rw [if_neg h1] at h
    by_cases h2 : cluster_confidence (pattern_entry_choice so flows) (pattern_exit_choice so flows) flows < 0.3
    · rw [if_pos h2] at h
      simp at h
    · rw [if_neg h2] at h
      cases flows with
      | nil =>
        simp at h1
      | cons rep rest =>
        simp only [Option.some.injEq] at h
        refine ⟨by simp, ?_, ?_⟩
        · rw [← h]
        · rw [← h]
          exact h2

theorem pattern_analysis_mem (so : List String → List String) (labels : List ℤ) (now : ℚ)
    (flows : List TrafficFlow) (r : Correlation)
    (h : r ∈ pattern_analysis so labels now flows) :
    ∃ cl ∈ groupByKey cluster_key
        (labels.zip (flows.filter (fun f => f.entry_node.isSome && f.exit_node.isSome))),
      2 ≤ (cl.2.map Prod.snd).length
      ∧ create_pattern_correlation so now (cl.2.map Prod.snd) = some r := by
  unfold pattern_analysis at h
  by_cases hlen : (flows.filter (fun f => f.entry_node.isSome && f.exit_node.isSome)).length < 2
  · rw [if_pos hlen] at h
    simp at h
  · rw [if_neg hlen] at h
    rcases List.mem_filterMap.mp h with ⟨cl, hcl, hsome⟩
    by_cases h2 : 2 ≤ (cl.2.map Prod.snd).length
    · rw [if_pos h2] at hsome
      exact ⟨cl, hcl, h2, hsome⟩
    · rw [if_neg h2] at hsome
      simp at hsome

theorem pattern_analysis_conf_bounds (so : List String → List String) (labels : List ℤ)
    (now : ℚ) (flows : List TrafficFlow) (r : Correlation)
    (h : r ∈ pattern_analysis so labels now flows) :
    0 ≤ r.confidence_score ∧ r.confidence_score ≤ 1 := by
  rcases pattern_analysis_mem so labels now flows r h with ⟨cl, _, _, hsome⟩
  rcases create_pattern_correlation_conf so now _ r hsome with ⟨hne, hconf, _⟩
  rw [hconf]
  exact cluster_confidence_bounds _ _ _ hne

theorem ai_enhance_one_conf (c : Correlation) :
    (0.7 < c.confidence_score →
      (ai_enhance_one c).confidence_score = min 1 (c.confidence_score * 1.1))
    ∧ (¬0.7 < c.confidence_score → ai_enhance_one c = c)
    ∧ (0 ≤ c.confidence_score → c.confidence_score ≤ 1 →
        0 ≤ (ai_enhance_one c).confidence_score ∧ (ai_enhance_one c).confidence_score ≤ 1) := by
  refine ⟨?_, ?_, ?_⟩
  · intro h
    unfold ai_enhance_one
    rw [if_pos h]
  · intro h
    unfold ai_enhance_one
    rw [if_neg h]
  · intro h0 h1
    unfold ai_enhance_one
    by_cases h : 0.7 < c.confidence_score
    · rw [if_pos h]
      constructor
      · simp only
        rw [le_min_iff]
        constructor <;> nlinarith
      · simp only
        exact min_le_left _ _
    · rw [if_neg h]
      exact ⟨h0, h1⟩

end CorrelationService

namespace CorrelationService

/-- C5: every pipeline stage keeps confidence scores inside [0,1] — timing
and pattern records are emitted with confidence in [0,1], the merger only
passes records through, and the adjuster multiplies confidence by 1.1 capped
at 1.0 exactly when it already exceeds 0.7 and leaves the record unchanged
otherwise; end-to-end, every record returned by analyze has confidence in
[0,1]. -/
theorem spec_C5 :
    (∀ flows r, r ∈ timing_analysis flows → 0 ≤ r.confidence_score ∧ r.confidence_score ≤ 1)
    ∧ (∀ so labels now flows r, r ∈ pattern_analysis so labels now flows →
        0 ≤ r.confidence_score ∧ r.confidence_score ≤ 1)
    ∧ (∀ t p r, (∀ q ∈ t, 0 ≤ q.confidence_score ∧ q.confidence_score ≤ 1) →
        (∀ q ∈ p, 0 ≤ q.confidence_score ∧ q.confidence_score ≤ 1) →
        r ∈ combine_correlations t p → 0 ≤ r.confidence_score ∧ r.confidence_score ≤ 1)
    ∧ (∀ c : Correlation,
        (0.7 < c.confidence_score →
          (ai_enhance_one c).confidence_score = min 1 (c.confidence_score * 1.1))
        ∧ (¬0.7 < c.confidence_score → ai_enhance_one c = c)
        ∧ (0 ≤ c.confidence_score → c.confidence_score ≤ 1 →
            0 ≤ (ai_enhance_one c).confidence_score ∧ (ai_enhance_one c).confidence_score ≤ 1))
    ∧ (∀ l, ai_enhance_correlations l = l.map ai_enhance_one)
    ∧ (∀ so labels_for now flows r,
        r ∈ analyze_traffic_correlation so labels_for now flows →
        0 ≤ r.confidence_score ∧ r.confidence_score ≤ 1) := by
  refine ⟨?_, ?_, ?_, ai_enhance_one_conf, fun _ => rfl, ?_⟩
  · exact fun flows r => timing_analysis_conf_bounds flows r
  · exact fun so labels now flows r => pattern_analysis_conf_bounds so labels now flows r
  · intro t p r ht hp hr
    rw [combine_correlations_eq] at hr
    rcases List.mem_append.mp hr with h | h
    · exact ht r h
    · exact hp r (List.mem_filter.mp h).1
  · intro so labels_for now flows r h
    unfold analyze_traffic_correlation at h
    cases hg : group_by_time_windows 300 flows with
    | none =>
      rw [hg] at h
      simp at h
    | some ws =>
      rw [hg] at h
      simp only at h
      rcases List.mem_flatMap.mp h with ⟨w, hw, hr⟩
      unfold ai_enhance_correlations at hr
      rcases List.mem_map.mp hr with ⟨c, hc, hmap⟩
      have hcb : 0 ≤ c.confidence_score ∧ c.confidence_score ≤ 1 := by
        rw [combine_correlations_eq] at hc
        rcases List.mem_append.mp hc with h' | h'
        · exact timing_analysis_conf_bounds _ _ h'
        · exact pattern_analysis_conf_bounds _ _ _ _ _ (List.mem_filter.mp h').1
      rw [← hmap]
      exact (ai_enhance_one_conf c).2.2 hcb.1 hcb.2

theorem group_by_time_windows_eq (window_size : ℕ) (h : window_size / 60 ≠ 0) :
    ∀ (flows : List TrafficFlow) (acc : List (ℚ × List TrafficFlow)),
      (flows.foldlM
        (fun acc f =>
          if window_size / 60 = 0 then none
          else some (addToGroup acc (window_start window_size f.timestamp) f))
        acc : Option (List (ℚ × List TrafficFlow)))
      = some (flows.foldl (groupStep (fun f => some (window_start window_size f.timestamp))) acc) := by
  intro flows
  induction flows with
  | nil => intro acc; rfl
  | cons f flows ih =>
    intro acc
    rw [List.foldlM_cons, if_neg h]
    rw [List.foldl_cons]
    simpa [groupStep] using ih (addToGroup acc (window_start window_size f.timestamp) f)

theorem group_by_time_windows_some (window_size : ℕ) (h : 60 ≤ window_size)
    (flows : List TrafficFlow) :
    group_by_time_windows window_size flows
      = some (groupByKey (fun f => some (window_start window_size f.timestamp)) flows) := by
  have hk : window_size / 60 ≠ 0 := by
    have : 1 ≤ window_size / 60 := (Nat.one_le_div_iff (by norm_num)).mpr h
    omega
  unfold group_by_time_windows groupByKey
  exact group_by_time_windows_eq window_size hk flows []

theorem window_start_bounds_aux (M R K : ℤ) (ws t : ℚ)
    (hM1 : (M : ℚ) * 60 ≤ t) (hM2 : t < ((M : ℚ) + 1) * 60)
    (hr0 : 0 ≤ R) (hrk : R + 1 ≤ K) (hws : (K : ℚ) * 60 ≤ ws) :
    60 * (M : ℚ) - 60 * (R : ℚ) ≤ t ∧ t < 60 * (M : ℚ) - 60 * (R : ℚ) + ws := by
  have hr0' : (0 : ℚ) ≤ (R : ℚ) := by exact_mod_cast hr0
  have hrk' : (R : ℚ) + 1 ≤ (K : ℚ) := by exact_mod_cast hrk
  constructor <;> linarith

theorem window_start_bounds (window_size : ℕ) (h : 60 ≤ window_size) (t : ℚ) :
    window_start window_size t ≤ t ∧ t < window_start window_size t + window_size := by
  have hk : 1 ≤ window_size / 60 := (Nat.one_le_div_iff (by norm_num)).mpr h
  have hkz : ((window_size / 60 : ℕ) : ℤ) ≠ 0 := by
    simp only [ne_eq, Nat.cast_eq_zero]
    omega
  have hkpos : (0 : ℤ) < ((window_size / 60 : ℕ) : ℤ) := by
    exact_mod_cast hk
  have hr0 : (0 : ℤ) ≤ ((⌊t / 60⌋ : ℤ).emod 60).emod ((window_size / 60 : ℕ) : ℤ) :=
    Int.emod_nonneg _ hkz
  have hrk : ((⌊t / 60⌋ : ℤ).emod 60).emod ((window_size / 60 : ℕ) : ℤ)
      < ((window_size / 60 : ℕ) : ℤ) :=
    Int.emod_lt_of_pos _ hkpos
  have hrk2 : ((⌊t / 60⌋ : ℤ).emod 60).emod ((window_size / 60 : ℕ) : ℤ) + 1
      ≤ ((window_size / 60 : ℕ) : ℤ) := by omega
  have hM1' : ((⌊t / 60⌋ : ℤ) : ℚ) * 60 ≤ t := by
    rw [← le_div_iff₀ (by norm_num : (0 : ℚ) < 60)]
    exact Int.floor_le _
  have hM2' : t < (((⌊t / 60⌋ : ℤ) : ℚ) + 1) * 60 := by
    rw [← div_lt_iff₀ (by norm_num : (0 : ℚ) < 60)]
    exact Int.lt_floor_add_one _
  have hws : (((window_size / 60 : ℕ) : ℤ) : ℚ) * 60 ≤ (window_size : ℚ) := by
    have h1 : (window_size / 60) * 60 ≤ window_size := Nat.div_mul_le_self window_size 60
    exact_mod_cast h1
  unfold window_start
  exact window_start_bounds_aux ⌊t / 60⌋ _ _ _ t hM1' hM2' hr0 hrk2 hws

end CorrelationService

namespace CorrelationService

/-- C6 (amended): for every window size of at least 60 seconds — in
particular the fixed 300-second size the engine uses — the partitioner is
total: it succeeds, every input flow lands in exactly one bucket, bucket
sizes sum to the batch size, every flow's timestamp lies in
`[window_start, window_start + window_size)` for its bucket's
calendar-aligned window start, and empty input yields an empty mapping (the
latter for every window size, even invalid ones). -/
theorem spec_C6 (window_size : ℕ) (flows : List TrafficFlow) (h : 60 ≤ window_size) :
    (∀ ws' : ℕ, group_by_time_windows ws' ([] : List TrafficFlow) = some [])
    ∧ ∃ windows, group_by_time_windows window_size flows = some windows
      ∧ (flows = [] → windows = [])
      ∧ (windows.map (fun w => w.2.length)).sum = flows.length
      ∧ (∀ f ∈ flows, windows.countP (fun w => decide (f ∈ w.2)) = 1)
      ∧ (∀ w ∈ windows, ∀ f ∈ w.2,
          w.1 = window_start window_size f.timestamp
          ∧ w.1 ≤ f.timestamp ∧ f.timestamp < w.1 + window_size) := by
  refine ⟨fun ws' => rfl,
    groupByKey (fun f => some (window_start window_size f.timestamp)) flows,
    group_by_time_windows_some window_size h flows, ?_, ?_, ?_, ?_⟩
  · intro hnil
    subst hnil
    rfl
  · rw [groupByKey_sizes]
    simp
  · intro f hf
    have hfB : f ∈ flows.filter (fun a =>
        decide ((fun f => some (window_start window_size f.timestamp)) a
          = some (window_start window_size f.timestamp))) := by
      rw [List.mem_filter]
      exact ⟨hf, by simp⟩
    have hBne := List.ne_nil_of_mem hfB
    have hmem := (groupByKey_mem_iff (fun f => some (window_start window_size f.timestamp))
      flows (window_start window_size f.timestamp) _).mpr ⟨rfl, hBne⟩
    rw [List.countP_congr (q := fun w => decide (w.1 = window_start window_size f.timestamp)) ?_]
    · exact countP_fst_eq_one _ _ _
        (groupByKey_keys_nodup (fun f => some (window_start window_size f.timestamp)) flows)
        hmem
    · intro w hw
      obtain ⟨k, fs⟩ := w
      have hfs := ((groupByKey_mem_iff (fun f => some (window_start window_size f.timestamp))
        flows k fs).mp hw).1
      simp only [decide_eq_true_eq]
      constructor
      · intro hfw
        rw [hfs, List.mem_filter] at hfw
        have := hfw.2
        simp only [decide_eq_true_eq, Option.some.injEq] at this
        exact this.symm
      · intro hk
        subst hk
        rw [hfs]
        rw [List.mem_filter]
        exact ⟨hf, by simp⟩
  · intro w hw f hfw
    obtain ⟨k, fs⟩ := w
    have hfs := ((groupByKey_mem_iff (fun f => some (window_start window_size f.timestamp))
      flows k fs).mp hw).1
    rw [hfs, List.mem_filter] at hfw
    have hk : window_start window_size f.timestamp = k := by
      have := hfw.2
      simp only [decide_eq_true_eq, Option.some.injEq] at this
      exact this
    have hb := window_start_bounds window_size h f.timestamp
    refine ⟨hk.symm, ?_, ?_⟩
    · rw [← hk]
      exact hb.1
    · rw [← hk]
      exact hb.2

end CorrelationService

/-- C6 counterexample: the claim quantifies over every window size, but at
window size 30 the source computes `minute % (30 // 60) = minute % 0` and
raises ZeroDivisionError on any nonempty input instead of partitioning it
(modelled as `none`). -/
theorem spec_C6_counterexample :
    CorrelationService.group_by_time_windows 30
      [⟨"f1", 0, "10.0.0.1", "1.2.3.4", 5000, 443, "TCP", 0, 0, 1, none, none, none⟩]
      = none := rfl

theorem pyMaxByCount_fold_spec (xs : List String) :
    ∀ (t : List String) (h : String),
      (t.foldl (fun best cand => if xs.count best < xs.count cand then cand else best) h) ∈ h :: t
      ∧ ∀ c ∈ h :: t,
          xs.count c
            ≤ xs.count (t.foldl (fun best cand =>
                if xs.count best < xs.count cand then cand else best) h) := by
  intro t
  induction t with
  | nil =>
    intro h
    exact ⟨by simp, by simp⟩
  | cons c t ih =>
    intro h
    rw [List.foldl_cons]
    by_cases hc : xs.count h < xs.count c
    · rw [if_pos hc]
      rcases ih c with ⟨hmem, hall⟩
      refine ⟨List.mem_cons_of_mem _ hmem, ?_⟩
      intro z hz
      rcases List.mem_cons.mp hz with rfl | hz'
      · exact le_trans (le_of_lt hc) (hall c (List.mem_cons_self c t))
      · exact hall z hz'
    · rw [if_neg hc]
      rcases ih h with ⟨hmem, hall⟩
      constructor
      · rcases List.mem_cons.mp hmem with h1 | h1
        · rw [h1]
          exact List.mem_cons_self h (c :: t)
        · exact List.mem_cons_of_mem _ (List.mem_cons_of_mem _ h1)
      · intro z hz
        rcases List.mem_cons.mp hz with rfl | hz'
        · exact hall z (List.mem_cons_self z t)
        · rcases List.mem_cons.mp hz' with rfl | hz''
          · exact le_trans (not_lt.mp hc) (hall h (List.mem_cons_self h t))
          · exact hall z (List.mem_cons_of_mem _ hz'')

theorem pyMaxByCount_spec (enum xs : List String)
    (hperm : enum.Perm xs.dedup) (hne : xs ≠ []) :
    pyMaxByCount enum xs ∈ xs
    ∧ ∀ n ∈ xs, xs.count n ≤ xs.count (pyMaxByCount enum xs) := by
  cases enum with
  | nil =>
    exfalso
    have hd : xs.dedup = [] := hperm.symm.eq_nil
    exact hne ((List.dedup_eq_nil xs).mp hd)
  | cons h t =>
    have hspec := pyMaxByCount_fold_spec xs t h
    have hres : pyMaxByCount (h :: t) xs
        = t.foldl (fun best cand => if xs.count best < xs.count cand then cand else best) h := rfl
    constructor
    · rw [hres]
      have h1 : t.foldl (fun best cand => if xs.count best < xs.count cand then cand else best) h
          ∈ h :: t := hspec.1
      have h2 := hperm.mem_iff.mp h1
      exact List.mem_dedup.mp h2
    · intro n hn
      rw [hres]
      have hnd : n ∈ xs.dedup := List.mem_dedup.mpr hn
      have hne2 : n ∈ h :: t := hperm.mem_iff.mpr hnd
      exact hspec.2 n hne2

namespace CorrelationService

theorem create_pattern_correlation_spec (so : List String → List String)
    (hso : ∀ l, (so l).Perm l.dedup) (now : ℚ) (flows : List TrafficFlow) (r : Correlation)
    (h : create_pattern_correlation so now flows = some r) :
    ∃ rep rest, flows = rep :: rest
    ∧ r.origin_ip = rep.source_ip
    ∧ r.destination_ip = rep.destination_ip
    ∧ r.entry_node ∈ flows.filterMap (fun f => f.entry_node)
    ∧ (∀ n ∈ flows.filterMap (fun f => f.entry_node),
        (flows.filterMap (fun f => f.entry_node)).count n
          ≤ (flows.filterMap (fun f => f.entry_node)).count r.entry_node)
    ∧ r.exit_node ∈ flows.filterMap (fun f => f.exit_node)
    ∧ (∀ n ∈ flows.filterMap (fun f => f.exit_node),
        (flows.filterMap (fun f => f.exit_node)).count n
          ≤ (flows.filterMap (fun f => f.exit_node)).count r.exit_node)
    ∧ r.confidence_score = cluster_confidence r.entry_node r.exit_node flows
    ∧ ¬(r.confidence_score < 0.3)
    ∧ r.correlation_method = "pattern_analysis" := by
  unfold create_pattern_correlation at h
  by_cases h1 : flows.filterMap (fun f => f.entry_node) = []
      ∨ flows.filterMap (fun f => f.exit_node) = []
  · rw [if_pos h1] at h
    simp at h
  · rw [if_neg h1] at h
    rw [not_or] at h1
    by_cases h2 : cluster_confidence (pattern_entry_choice so flows)
        (pattern_exit_choice so flows) flows < 0.3
    · rw [if_pos h2] at h
      simp at h
    · rw [if_neg h2] at h
      cases hfl : flows with
      | nil =>
        subst hfl
        simp at h1
      | cons rep rest =>
        subst hfl
        simp only [Option.some.injEq] at h
        have hentry_spec := pyMaxByCount_spec
          (so ((rep :: rest).filterMap (fun f => f.entry_node)))
          ((rep :: rest).filterMap (fun f => f.entry_node)) (hso _) h1.1
        have hexit_spec := pyMaxByCount_spec
          (so ((rep :: rest).filterMap (fun f => f.exit_node)))
          ((rep :: rest).filterMap (fun f => f.exit_node)) (hso _) h1.2
        have hren : r.entry_node = pattern_entry_choice so (rep :: rest) := by rw [← h]
        have hrxn : r.exit_node = pattern_exit_choice so (rep :: rest) := by rw [← h]
        refine ⟨rep, rest, rfl, by rw [← h], by rw [← h], ?_, ?_, ?_, ?_, ?_, ?_, by rw [← h]⟩
        · rw [hren]
          exact hentry_spec.1
        · rw [hren]
          exact hentry_spec.2
        · rw [hrxn]
          exact hexit_spec.1
        · rw [hrxn]
          exact hexit_spec.2
        · rw [hren, hrxn, ← h]
        · rw [← h]
          exact h2

end CorrelationService

namespace CorrelationService

/-- C4 (amended): the pattern clusterer considers only flows with both relay
ids; fewer than two such flows yield no records; every emitted record comes
from a cluster of at least two such flows, its entry and exit relay ids are
modes (most frequent values) of the cluster's entry and exit ids — with ties
resolved by the iteration order of the Python set of ids, which is
unspecified, rather than by first-encountered order — its confidence is the
fraction of members matching the chosen modal pair, records below
confidence 0.3 are discarded, and origin and destination IPs come from the
cluster's first member. -/
theorem spec_C4 (so : List String → List String) (hso : ∀ l, (so l).Perm l.dedup)
    (labels : List ℤ) (now : ℚ) (flows : List TrafficFlow) :
    ((flows.filter (fun f => f.entry_node.isSome && f.exit_node.isSome)).length < 2 →
      pattern_analysis so labels now flows = [])
    ∧ ∀ r ∈ pattern_analysis so labels now flows,
        ∃ members : List TrafficFlow,
          2 ≤ members.length
          ∧ (∀ f ∈ members, f ∈ flows ∧ f.entry_node.isSome ∧ f.exit_node.isSome)
          ∧ create_pattern_correlation so now members = some r
          ∧ (∃ rep rest, members = rep :: rest
              ∧ r.origin_ip = rep.source_ip ∧ r.destination_ip = rep.destination_ip)
          ∧ r.entry_node ∈ members.filterMap (fun f => f.entry_node)
          ∧ (∀ n ∈ members.filterMap (fun f => f.entry_node),
              (members.filterMap (fun f => f.entry_node)).count n
                ≤ (members.filterMap (fun f => f.entry_node)).count r.entry_node)
          ∧ r.exit_node ∈ members.filterMap (fun f => f.exit_node)
          ∧ (∀ n ∈ members.filterMap (fun f => f.exit_node),
              (members.filterMap (fun f => f.exit_node)).count n
                ≤ (members.filterMap (fun f => f.exit_node)).count r.exit_node)
          ∧ r.confidence_score = cluster_confidence r.entry_node r.exit_node members
          ∧ ¬(r.confidence_score < 0.3)
          ∧ r.correlation_method = "pattern_analysis" := by
  constructor
  · intro hlen
    unfold pattern_analysis
    rw [if_pos hlen]
  · intro r hr
    rcases pattern_analysis_mem so labels now flows r hr with ⟨cl, hcl, h2, hsome⟩
    refine ⟨cl.2.map Prod.snd, h2, ?_, hsome, ?_⟩
    · intro f hf
      rcases List.mem_map.mp hf with ⟨p, hp, hpf⟩
      obtain ⟨lab, members'⟩ := cl
      have hfs := ((groupByKey_mem_iff cluster_key _ lab members').mp hcl).1
      rw [hfs] at hp
      have hzip := (List.mem_filter.mp hp).1
      obtain ⟨pl, pf⟩ := p
      have hmem := List.of_mem_zip hzip
      have hfd := hmem.2
      rw [List.mem_filter] at hfd
      simp only at hpf
      subst hpf
      refine ⟨hfd.1, ?_, ?_⟩
      · have := hfd.2
        simp only [Bool.and_eq_true] at this
        exact this.1
      · have := hfd.2
        simp only [Bool.and_eq_true] at this
        exact this.2
    · rcases create_pattern_correlation_spec so hso now _ r hsome with
        ⟨rep, rest, hmem, ho, hd, he1, he2, hx1, hx2, hconf, hc3, hmeth⟩
      exact ⟨⟨rep, rest, hmem, ho, hd⟩, he1, he2, hx1, hx2, hconf, hc3, hmeth⟩

end CorrelationService

/-- Reversed set enumeration: a valid iteration order of a Python set (sets
are unordered; CPython's actual order depends on string hashes). -/
def revSetOrder (l : List String) : List String := l.dedup.reverse

/-- Set enumeration that happens to coincide with first-encountered order on
two-element lists of distinct strings. -/
def fwdSetOrder (l : List String) : List String := l.dedup

/-- Cluster member with entry relay "A" used in the counterexamples. -/
def cexFlowA : TrafficFlow :=
  ⟨"p1", 10, "10.0.0.1", "8.8.8.8", 1, 2, "TCP", 100, 100, 1, some "A", some "X", none⟩

/-- Cluster member with entry relay "B" used in the counterexamples. -/
def cexFlowB : TrafficFlow :=
  ⟨"p2", 11, "10.0.0.2", "8.8.8.9", 1, 2, "TCP", 100, 100, 1, some "B", some "X", none⟩

/-- C4 counterexample: the claim says modal ties break by first-encountered
order, but the code evaluates `max(set(entry_nodes), key=entry_nodes.count)`
and CPython set iteration order is unspecified.  On a cluster whose entry
ids `["A", "B"]` tie in frequency, first-encountered order picks "A", yet
under the equally valid set enumeration `["B", "A"]` the code emits a record
with entry relay "B". -/
theorem spec_C4_counterexample :
    (revSetOrder ["A", "B"]).Perm (["A", "B"].dedup)
    ∧ (revSetOrder ["X", "X"]).Perm (["X", "X"].dedup)
    ∧ ["A", "B"].count "A" = ["A", "B"].count "B"
    ∧ pyMaxByCount ["A", "B"] ["A", "B"] = "A"
    ∧ (CorrelationService.pattern_analysis revSetOrder [0, 0] 0 [cexFlowA, cexFlowB]).map
        (fun c => c.entry_node) = ["B"]
    ∧ ("B" : String) ≠ "A" := by
  refine ⟨by decide, by decide, by decide, by decide, ?_, by decide⟩
  have hso1 : revSetOrder ["A", "B"] = ["B", "A"] := by decide
  have hso2 : revSetOrder ["X", "X"] = ["X"] := by decide
  have hs1 : ("A" = "B") = False := by decide
  have hs2 : ("B" = "A") = False := by decide
  have hL1 : ((["A", "B"] : List String) = []) = False := by decide
  have hL2 : ((["X", "X"] : List String) = []) = False := by decide
  norm_num [CorrelationService.pattern_analysis, groupByKey, groupStep,
    CorrelationService.cluster_key, addToGroup, CorrelationService.create_pattern_correlation,
    CorrelationService.pattern_entry_choice, CorrelationService.pattern_exit_choice,
    CorrelationService.cluster_confidence, pyMaxByCount, hso1, hso2, hs1, hs2, hL1, hL2,
    cexFlowA, cexFlowB, List.zip_cons_cons, List.filterMap_cons, List.count_cons,
    List.foldl_cons, Option.some.injEq]

namespace CorrelationService

theorem mem_pair_list (el xl : List TrafficFlow) (p : TrafficFlow × TrafficFlow)
    (h : p ∈ pair_list el xl) : p.1 ∈ el ∧ p.2 ∈ xl := by
  unfold pair_list at h
  rcases List.mem_flatMap.mp h with ⟨e, he, hmem⟩
  rcases List.mem_map.mp hmem with ⟨x, hx, heq⟩
  constructor
  · rw [← heq]
    exact he
  · rw [← heq]
    exact hx

/-- C7 (amended): a timing correlation id is derived deterministically from
the entry relay id, the exit relay id and the chosen entry flow's timestamp
(truncated to an integer), all taken from the input batch; a pattern
correlation id instead embeds the wall-clock `datetime.utcnow()` timestamp
read at creation time, so re-running on the same input reproduces timing
record ids but need not reproduce pattern record ids. -/
theorem spec_C7 :
    (∀ en xn el xl c, calculate_timing_correlation en el xn xl = some c →
      ∃ e, e ∈ el
        ∧ c.id = "corr_" ++ en.take 8 ++ "_" ++ xn.take 8 ++ "_"
            ++ toString (pyInt e.timestamp))
    ∧ (∀ so now flows c, create_pattern_correlation so now flows = some c →
        c.id = "pattern_" ++ c.entry_node.take 8 ++ "_" ++ c.exit_node.take 8 ++ "_"
          ++ toString (pyInt now)) := by
  constructor
  · intro en xn el xl c h
    rcases calculate_timing_correlation_spec en xn el xl c h with
      ⟨l₁, e, x, l₂, hdec, _, hmk, _⟩
    have hmem : (e, x) ∈ pair_list el xl := by
      rw [hdec]
      exact List.mem_append_right _ (List.mem_cons_self _ _)
    refine ⟨e, (mem_pair_list el xl (e, x) hmem).1, ?_⟩
    rw [hmk]
    rfl
  · intro so now flows c h
    unfold create_pattern_correlation at h
    by_cases h1 : flows.filterMap (fun f => f.entry_node) = []
        ∨ flows.filterMap (fun f => f.exit_node) = []
    · rw [if_pos h1] at h
      simp at h
    · rw [if_neg h1] at h
      by_cases h2 : cluster_confidence (pattern_entry_choice so flows)
          (pattern_exit_choice so flows) flows < 0.3
      · rw [if_pos h2] at h
        simp at h
      · rw [if_neg h2] at h
        cases flows with
        | nil => simp at h
        | cons rep rest =>
          simp only [Option.some.injEq] at h
          rw [← h]

end CorrelationService

/-- Second cluster member with entry relay "A", used alongside `cexFlowA` in
the wall-clock id counterexample. -/
def cexFlowA2 : TrafficFlow :=
  ⟨"p3", 10, "10.0.0.3", "8.8.4.4", 1, 2, "TCP", 100, 100, 1, some "A", some "X", none⟩

/-- C7 counterexample: pattern record ids embed the wall-clock
`datetime.utcnow()` value, not any timestamp from the input, so two runs of
the clusterer on the same input batch at wall-clock times 0 and 60 produce
records with different ids. -/
theorem spec_C7_counterexample :
    (CorrelationService.pattern_analysis fwdSetOrder [0, 0] 0 [cexFlowA, cexFlowA2]).map
        (fun c => c.id) = ["pattern_A_X_0"]
    ∧ (CorrelationService.pattern_analysis fwdSetOrder [0, 0] 60 [cexFlowA, cexFlowA2]).map
        (fun c => c.id) = ["pattern_A_X_60"]
    ∧ ("pattern_A_X_0" : String) ≠ "pattern_A_X_60" := by
  have hso1 : fwdSetOrder ["A", "A"] = ["A"] := by decide
  have hso2 : fwdSetOrder ["X", "X"] = ["X"] := by decide
  have hL1 : ((["A", "A"] : List String) = []) = False := by decide
  have hL2 : ((["X", "X"] : List String) = []) = False := by decide
  have hid0 : "pattern_" ++ ("A" : String).take 8 ++ "_" ++ ("X" : String).take 8 ++ "_"
      ++ toString (pyInt (0 : ℚ)) = "pattern_A_X_0" := by decide
  have hid60 : "pattern_" ++ ("A" : String).take 8 ++ "_" ++ ("X" : String).take 8 ++ "_"
      ++ toString (pyInt (60 : ℚ)) = "pattern_A_X_60" := by decide
  refine ⟨?_, ?_, by decide⟩
  · norm_num [CorrelationService.pattern_analysis, groupByKey, groupStep,
      CorrelationService.cluster_key, addToGroup, CorrelationService.create_pattern_correlation,
      CorrelationService.pattern_entry_choice, CorrelationService.pattern_exit_choice,
      CorrelationService.cluster_confidence, pyMaxByCount, hso1, hso2, hL1, hL2, hid0,
      cexFlowA, cexFlowA2, List.zip_cons_cons, List.filterMap_cons, List.count_cons,
      List.foldl_cons, Option.some.injEq]
  · norm_num [CorrelationService.pattern_analysis, groupByKey, groupStep,
      CorrelationService.cluster_key, addToGroup, CorrelationService.create_pattern_correlation,
      CorrelationService.pattern_entry_choice, CorrelationService.pattern_exit_choice,
      CorrelationService.cluster_confidence, pyMaxByCount, hso1, hso2, hL1, hL2, hid60,
      cexFlowA, cexFlowA2, List.zip_cons_cons, List.filterMap_cons, List.count_cons,
      List.foldl_cons, Option.some.injEq]

namespace CorrelationService

/-- C8 (amended): analyze processes each window independently and returns
the per-window merged-and-adjusted lists concatenated in the order each
window first appears in the input batch (Python dict insertion order) — not
in ascending window-start order; each window's bucket holds exactly the
input flows whose calendar-aligned window start is that bucket's key. -/
theorem spec_C8 (so : List String → List String) (labels_for : List TrafficFlow → List ℤ)
    (now : ℚ) (flows : List TrafficFlow) :
    analyze_traffic_correlation so labels_for now flows
      = (groupByKey (fun f => some (window_start 300 f.timestamp)) flows).flatMap
          (fun w => ai_enhance_correlations
            (combine_correlations (timing_analysis w.2)
              (pattern_analysis so (labels_for w.2) now w.2)))
    ∧ (groupByKey (fun f => some (window_start 300 f.timestamp)) flows).map Prod.fst
        = (flows.map (fun f => window_start 300 f.timestamp)).foldl insertNew []
    ∧ ∀ w ∈ groupByKey (fun f => some (window_start 300 f.timestamp)) flows,
        w.2 = flows.filter (fun f => decide (window_start 300 f.timestamp = w.1)) := by
  refine ⟨?_, ?_, ?_⟩
  · unfold analyze_traffic_correlation
    rw [group_by_time_windows_some 300 (by norm_num) flows]
  · rw [groupByKey_keys]
    have h : ∀ l : List TrafficFlow, l.filterMap (fun f => some (window_start 300 f.timestamp))
        = l.map (fun f => window_start 300 f.timestamp) := by
      intro l
      induction l with
      | nil => rfl
      | cons a l ih => simp [List.filterMap_cons, ih]
    rw [h]
  · intro w hw
    obtain ⟨k, fs⟩ := w
    have hfs := ((groupByKey_mem_iff (fun f => some (window_start 300 f.timestamp))
      flows k fs).mp hw).1
    rw [hfs]
    apply List.filter_congr
    intro a _
    simp

end CorrelationService

/-- Entry-side flow of the later 300-second window (start 600), first in the
input batch. -/
def cexFlowE : TrafficFlow :=
  ⟨"e1", 600, "10.0.1.1", "2.2.2.2", 10, 443, "TCP", 1000, 1000, 5, some "R1", none, none⟩

/-- Exit-side flow of the later window (timestamp 604, a 4-second delay). -/
def cexFlowF : TrafficFlow :=
  ⟨"x1", 604, "3.3.3.3", "4.4.4.4", 11, 443, "TCP", 1000, 1000, 5, none, some "R2", none⟩

/-- Entry-side flow of the earlier window (start 0), later in the input. -/
def cexFlowG : TrafficFlow :=
  ⟨"e2", 0, "10.0.1.2", "2.2.2.3", 12, 443, "TCP", 1000, 1000, 5, some "R3", none, none⟩

/-- Exit-side flow of the earlier window (timestamp 4). -/
def cexFlowH : TrafficFlow :=
  ⟨"x2", 4, "3.3.3.4", "4.4.4.5", 13, 443, "TCP", 1000, 1000, 5, none, some "R4", none⟩

/-- Label oracle marking every flow as DBSCAN noise. -/
def noiseLabels (fs : List TrafficFlow) : List ℤ := fs.map (fun _ => (-1 : ℤ))

/-- C8 counterexample: analyze concatenates windows in dict insertion order
(first appearance in the batch), not ascending window-start order.  With the
later window (start 600) first in the input, its record (entry relay "R1",
entry timestamp 600) precedes the earlier window's record (entry relay "R3",
entry timestamp 0), although 600 > 0. -/
theorem spec_C8_counterexample :
    (CorrelationService.analyze_traffic_correlation fwdSetOrder noiseLabels 0
        [cexFlowE, cexFlowF, cexFlowG, cexFlowH]).map
        (fun c => (c.entry_node, c.timing_analysis.map (fun ev => ev.entry_timestamp)))
      = [("R1", some 600), ("R3", some 0)]
    ∧ CorrelationService.window_start 300 cexFlowE.timestamp = 600
    ∧ CorrelationService.window_start 300 cexFlowG.timestamp = 0
    ∧ ¬((600 : ℚ) ≤ 0) := by
  have h600 : ⌊(600 : ℚ)/60⌋ = 10 := by norm_num [Int.floor_eq_iff]
  have h604 : ⌊(604 : ℚ)/60⌋ = 10 := by norm_num [Int.floor_eq_iff]
  have h0 : ⌊(0 : ℚ)/60⌋ = 0 := by norm_num
  have h4 : ⌊(4 : ℚ)/60⌋ = 0 := by norm_num [Int.floor_eq_iff]
  have he10 : (((10 : ℤ).emod 60).emod ((300 / 60 : ℕ) : ℤ)) = 0 := by decide
  have he0 : (((0 : ℤ).emod 60).emod ((300 / 60 : ℕ) : ℤ)) = 0 := by decide
  have hws600 : CorrelationService.window_start 300 (600 : ℚ) = 600 := by
    rw [CorrelationService.window_start, h600, he10]; norm_num
  have hws604 : CorrelationService.window_start 300 (604 : ℚ) = 600 := by
    rw [CorrelationService.window_start, h604, he10]; norm_num
  have hws0 : CorrelationService.window_start 300 (0 : ℚ) = 0 := by
    rw [CorrelationService.window_start, h0, he0]; norm_num
  have hws4 : CorrelationService.window_start 300 (4 : ℚ) = 0 := by
    rw [CorrelationService.window_start, h4, he0]; norm_num
  refine ⟨?_, by rw [cexFlowE]; exact hws600, by rw [cexFlowG]; exact hws0, by norm_num⟩
  unfold CorrelationService.analyze_traffic_correlation
  rw [CorrelationService.group_by_time_windows_some 300 (by norm_num)]
  norm_num [groupByKey, groupStep, addToGroup, hws600, hws604, hws0, hws4,
    cexFlowE, cexFlowF, cexFlowG, cexFlowH, noiseLabels,
    CorrelationService.timing_analysis, CorrelationService.keep_if_confident,
    CorrelationService.calculate_timing_correlation, CorrelationService.timing_step,
    CorrelationService.eligible_pair, CorrelationService.combined_score,
    CorrelationService.timing_score_of, CorrelationService.calculate_volume_correlation,
    CorrelationService.volume_ratio, CorrelationService.mk_timing_correlation,
    CorrelationService.pattern_analysis, CorrelationService.combine_correlations,
    CorrelationService.ai_enhance_correlations, CorrelationService.ai_enhance_one,
    List.filterMap_cons, List.foldl_cons, abs]

namespace CorrelationService

theorem timing_analysis_singleton (f : TrafficFlow) : timing_analysis [f] = [] := by
  unfold timing_analysis
  cases hfe : f.entry_node with
  | none =>
    have he : groupByKey (fun fl => fl.entry_node) [f] = [] := by
      simp [groupByKey, groupStep, hfe]
    rw [he]
    rfl
  | some en =>
    cases hfx : f.exit_node with
    | none =>
      have hx : groupByKey (fun fl => fl.exit_node) [f] = [] := by
        simp [groupByKey, groupStep, hfx]
      rw [hx]
      simp
    | some xn =>
      have he : groupByKey (fun fl => fl.entry_node) [f] = [(en, [f])] := by
        simp [groupByKey, groupStep, hfe, addToGroup]
      have hx : groupByKey (fun fl => fl.exit_node) [f] = [(xn, [f])] := by
        simp [groupByKey, groupStep, hfx, addToGroup]
      rw [he, hx]
      have hstep : timing_step en xn (0, none) (f, f) = (0, none) := by
        rw [timing_step_eq, if_neg]
        rintro ⟨⟨h2, _⟩, _⟩
        norm_num at h2
      have hcalc : calculate_timing_correlation en [f] xn [f] = none := by
        unfold calculate_timing_correlation
        simp [hstep]
      simp [hcalc, keep_if_confident]

theorem pattern_analysis_singleton (so : List String → List String) (labels : List ℤ)
    (now : ℚ) (f : TrafficFlow) : pattern_analysis so labels now [f] = [] := by
  unfold pattern_analysis
  rw [if_pos]
  have hle := List.length_filter_le (fun fl => fl.entry_node.isSome && fl.exit_node.isSome) [f]
  simp only [List.length_cons, List.length_nil] at hle
  omega

/-- C9: analyze is total on domain data — the embedding returns a list for
every batch, with no exception path — and degenerate batches produce an
empty list: the empty batch and any batch with fewer flows than the
clustering minimum of 2 yield `[]`, not an error. -/
theorem spec_C9 (so : List String → List String) (labels_for : List TrafficFlow → List ℤ)
    (now : ℚ) :
    analyze_traffic_correlation so labels_for now [] = []
    ∧ ∀ flows : List TrafficFlow, flows.length < 2 →
        analyze_traffic_correlation so labels_for now flows = [] := by
  constructor
  · rfl
  · intro flows hlen
    cases flows with
    | nil => rfl
    | cons f rest =>
      cases rest with
      | cons g rest2 =>
        simp at hlen
        omega
      | nil =>
        unfold analyze_traffic_correlation
        rw [group_by_time_windows_some 300 (by norm_num)]
        have hg : groupByKey (fun fl => some (window_start 300 fl.timestamp)) [f]
            = [(window_start 300 f.timestamp, [f])] := by
          simp [groupByKey, groupStep, addToGroup]
        rw [hg]
        simp [timing_analysis_singleton, pattern_analysis_singleton, combine_correlations,
          ai_enhance_correlations]

end CorrelationService

/-- Flow with entry relay "R1" and zero byte counts, 10 seconds before
`wFlowZ2` (an ineligible delay). -/
def wFlowZ1 : TrafficFlow :=
  ⟨"w1", 0, "5.5.5.5", "6.6.6.6", 1, 2, "TCP", 0, 0, 1, some "R1", none, none⟩

/-- Flow with exit relay "R2" and zero byte counts. -/
def wFlowZ2 : TrafficFlow :=
  ⟨"w2", 10, "7.7.7.7", "8.8.8.8", 1, 2, "TCP", 0, 0, 1, none, some "R2", none⟩

/-- Timing correlation with confidence 0.9, used by merger witnesses. -/
def demoTimingC : Correlation :=
  ⟨"t1", "R1", "R2", "9.9.9.9", "8.8.8.8", 0.9, "timing_analysis", none, none⟩

/-- Pattern correlation sharing entry relay, exit relay and origin IP with
`demoTimingC`. -/
def demoPatternC : Correlation :=
  ⟨"p1", "R1", "R2", "9.9.9.9", "7.7.7.7", 0.5, "pattern_analysis", none, none⟩

/-- Correlation with confidence 0.8, above the adjuster threshold. -/
def demoHighC : Correlation :=
  ⟨"h1", "R1", "R2", "9.9.9.9", "8.8.8.8", 0.8, "timing_analysis", none, none⟩

theorem spec_C1_witness :
    CorrelationService.timing_step "R1" "R2" (0, none) (wFlowZ1, wFlowZ2) = (0, none)
    ∧ CorrelationService.calculate_volume_correlation wFlowZ1 wFlowZ2 = 1
    ∧ CorrelationService.timing_score_of 2 = 0 := by
  have h := CorrelationService.spec_C1 "R1" "R2" (0, none) wFlowZ1 wFlowZ2 2
  refine ⟨h.2.1 ?_, h.2.2.2.2.2.2.2.1 ⟨by decide, by decide⟩, h.2.2.2.2.2.1⟩
  rw [CorrelationService.eligible_pair]
  norm_num [wFlowZ1, wFlowZ2]

theorem spec_C2_witness :
    0.5 < (CorrelationService.mk_timing_correlation "R1" "R2" cexFlowE cexFlowF).confidence_score
    ∧ ((CorrelationService.timing_analysis [cexFlowE, cexFlowF]).countP
        (fun r => decide (r.entry_node = "R1") && decide (r.exit_node = "R2"))) ≤ 1 := by
  have hconf : ∀ (en xn : String) (e x : TrafficFlow),
      (CorrelationService.mk_timing_correlation en xn e x).confidence_score
        = CorrelationService.combined_score e x := fun _ _ _ _ => rfl
  have heval : CorrelationService.timing_analysis [cexFlowE, cexFlowF]
      = [CorrelationService.mk_timing_correlation "R1" "R2" cexFlowE cexFlowF] := by
    norm_num [CorrelationService.timing_analysis, CorrelationService.keep_if_confident,
      CorrelationService.calculate_timing_correlation, CorrelationService.timing_step,
      CorrelationService.eligible_pair, CorrelationService.combined_score,
      CorrelationService.timing_score_of, CorrelationService.calculate_volume_correlation,
      CorrelationService.volume_ratio, groupByKey, groupStep, addToGroup, hconf,
      cexFlowE, cexFlowF, List.filterMap_cons, List.foldl_cons, abs]
  have hmem : CorrelationService.mk_timing_correlation "R1" "R2" cexFlowE cexFlowF
      ∈ CorrelationService.timing_analysis [cexFlowE, cexFlowF] := by
    rw [heval]
    exact List.mem_singleton.mpr rfl
  have h := (CorrelationService.spec_C2 [cexFlowE, cexFlowF] "R1" "R2").2.1 _ hmem rfl rfl
  exact ⟨h.1, (CorrelationService.spec_C2 [cexFlowE, cexFlowF] "R1" "R2").1⟩

theorem spec_C3_witness :
    (∃ tc ∈ [demoTimingC], CorrelationService.overlaps demoPatternC tc)
      ↔ demoPatternC ∉ (CorrelationService.combine_correlations
          [demoTimingC] [demoPatternC]).drop ([demoTimingC] : List Correlation).length :=
  (CorrelationService.spec_C3 [demoTimingC] [demoPatternC]).2.2.1 demoPatternC
    (List.mem_singleton.mpr rfl)

theorem spec_C4_witness :
    CorrelationService.pattern_analysis fwdSetOrder [] 0 ([] : List TrafficFlow) = [] :=
  (CorrelationService.spec_C4 fwdSetOrder (fun l => List.Perm.refl _) [] 0 []).1 (by simp)

theorem spec_C5_witness :
    (CorrelationService.ai_enhance_one demoHighC).confidence_score
      = min 1 (demoHighC.confidence_score * 1.1)
    ∧ 0 ≤ (CorrelationService.ai_enhance_one demoHighC).confidence_score
    ∧ (CorrelationService.ai_enhance_one demoHighC).confidence_score ≤ 1 := by
  have hd := CorrelationService.spec_C5.2.2.2.1 demoHighC
  have hb := hd.2.2 (by norm_num [demoHighC]) (by norm_num [demoHighC])
  exact ⟨hd.1 (by norm_num [demoHighC]), hb.1, hb.2⟩

theorem spec_C6_witness :
    ∃ windows, CorrelationService.group_by_time_windows 300 [cexFlowE] = some windows
      ∧ ([cexFlowE] = [] → windows = [])
      ∧ (windows.map (fun w => w.2.length)).sum = ([cexFlowE] : List TrafficFlow).length
      ∧ (∀ f ∈ [cexFlowE], windows.countP (fun w => decide (f ∈ w.2)) = 1)
      ∧ (∀ w ∈ windows, ∀ f ∈ w.2,
          w.1 = CorrelationService.window_start 300 f.timestamp
          ∧ w.1 ≤ f.timestamp ∧ f.timestamp < w.1 + (300 : ℕ)) :=
  (CorrelationService.spec_C6 300 [cexFlowE] (by norm_num)).2

theorem spec_C7_witness :
    ∃ e, e ∈ [cexFlowE]
      ∧ (CorrelationService.mk_timing_correlation "R1" "R2" cexFlowE cexFlowF).id
          = "corr_" ++ ("R1" : String).take 8 ++ "_" ++ ("R2" : String).take 8 ++ "_"
            ++ toString (pyInt e.timestamp) := by
  have hconf : ∀ (en xn : String) (e x : TrafficFlow),
      (CorrelationService.mk_timing_correlation en xn e x).confidence_score
        = CorrelationService.combined_score e x := fun _ _ _ _ => rfl
  have hcalc : CorrelationService.calculate_timing_correlation "R1" [cexFlowE] "R2" [cexFlowF]
      = some (CorrelationService.mk_timing_correlation "R1" "R2" cexFlowE cexFlowF) := by
    norm_num [CorrelationService.calculate_timing_correlation, CorrelationService.timing_step,
      CorrelationService.eligible_pair, CorrelationService.combined_score,
      CorrelationService.timing_score_of, CorrelationService.calculate_volume_correlation,
      CorrelationService.volume_ratio, hconf, cexFlowE, cexFlowF, List.foldl_cons, abs]
  exact CorrelationService.spec_C7.1 "R1" "R2" [cexFlowE] [cexFlowF] _ hcalc

theorem spec_C8_witness :
    ([cexFlowE] : List TrafficFlow)
      = [cexFlowE].filter
          (fun f => decide (CorrelationService.window_start 300 f.timestamp = (600 : ℚ))) := by
  have h600 : ⌊(600 : ℚ)/60⌋ = 10 := by norm_num [Int.floor_eq_iff]
  have he10 : (((10 : ℤ).emod 60).emod ((300 / 60 : ℕ) : ℤ)) = 0 := by decide
  have hws600 : CorrelationService.window_start 300 (600 : ℚ) = 600 := by
    rw [CorrelationService.window_start, h600, he10]; norm_num
  have hw : ((600 : ℚ), [cexFlowE]) ∈ groupByKey
      (fun f => some (CorrelationService.window_start 300 f.timestamp)) [cexFlowE] := by
    have hg : groupByKey (fun f => some (CorrelationService.window_start 300 f.timestamp)) [cexFlowE]
        = [((600 : ℚ), [cexFlowE])] := by
      simp [groupByKey, groupStep, addToGroup, cexFlowE, hws600]
    rw [hg]
    exact List.mem_singleton.mpr rfl
  exact (CorrelationService.spec_C8 fwdSetOrder noiseLabels 0 [cexFlowE]).2.2
    ((600 : ℚ), [cexFlowE]) hw

theorem spec_C9_witness :
    CorrelationService.analyze_traffic_correlation fwdSetOrder noiseLabels 0 [cexFlowE] = [] :=
  (CorrelationService.spec_C9 fwdSetOrder noiseLabels 0).2 [cexFlowE] (by norm_num)

theorem spec_C10_witness :
    demoPatternC ∈ CorrelationService.combine_correlations [] [demoPatternC] :=
  (CorrelationService.spec_C10 [] [demoPatternC]).2 demoPatternC (List.mem_singleton.mpr rfl)
    (by intro tc htc; simp at htc)
